import Mathlib

/-!
# The bhyve relocator of grub2-bhyve

A shallow embedding of the guest-memory relocator of
`grub-core/kern/emu/bhyve.c`.  Addresses and sizes are the 64-bit unsigned
`grub_phys_addr_t` / `grub_size_t` of the amd64 build; they are natural
numbers here and every C operation that can wrap is reduced modulo `2 ^ 64`.
The singly linked chunk list (`SLIST`) is a Lean list read from head to tail.
-/

namespace Bhyve

/-- Number of values of a 64-bit unsigned integer, `2 ^ 64`. -/
def U64 : Nat := 18446744073709551616

/-- Addition of two `grub_uint64_t` values. -/
def add64 (a b : Nat) : Nat := (a + b) % U64

/-- Subtraction of two `grub_uint64_t` values (`a - b` wraps below zero). -/
def sub64 (a b : Nat) : Nat := (a + (U64 - b % U64)) % U64

/-- Bitwise complement of a `grub_uint64_t` value. -/
def not64 (a : Nat) : Nat := U64 - 1 - a % U64

/-- Modelled from the spec: the enumeration `grub_err_t` is declared in
`grub/err.h`, which is not among the sources.  These are the values the
relocator names; in the error taxonomy of the spec `GRUB_ERR_BAD_ARGUMENT`
is Overlap, `GRUB_ERR_OUT_OF_RANGE` is OutOfRange and
`GRUB_ERR_OUT_OF_MEMORY` is OutOfMemory.  The source relies on
`GRUB_ERR_NONE` being zero (`err = 0`, `if (err)`).  `other` stands for any
further value of the type, which only an uninitialised variable can hold
here. -/
inductive grub_err_t where
  | GRUB_ERR_NONE
  | GRUB_ERR_OUT_OF_MEMORY
  | GRUB_ERR_OUT_OF_RANGE
  | GRUB_ERR_BAD_ARGUMENT
  | other (code : Nat)
  deriving DecidableEq, Repr

open grub_err_t

/-- Modelled from the spec: the type tag of an available segment,
`GRUB_MEMORY_AVAILABLE` of `grub/memory.h`, which is not among the sources. -/
def GRUB_MEMORY_AVAILABLE : Nat := 1

/-- Modelled from the spec: the type tag of a reserved segment,
`GRUB_MEMORY_RESERVED` of `grub/memory.h`, which is not among the sources. -/
def GRUB_MEMORY_RESERVED : Nat := 2

/-- Modelled from the spec: `struct grub_mmap_region`, one entry of the
segment table, is declared in a header that is not among the sources.  These
are the fields the relocator and `grub_emu_bhyve_init` use, the Memory
Segment of the spec: `start`, the inclusive last address (`end_` is the C
field `end`) and the `type` tag. -/
structure grub_mmap_region where
  start : Nat
  end_ : Nat
  type : Nat
  deriving DecidableEq, Repr

/-- The record `struct grub_bhyve_info`; `nsegs` is the length of `segs`. -/
structure grub_bhyve_info where
  bootsz : Nat
  segs : List grub_mmap_region
  deriving DecidableEq, Repr

/-- Field `nsegs` of `struct grub_bhyve_info`. -/
def grub_bhyve_info.nsegs (binfo : grub_bhyve_info) : Nat := binfo.segs.length

/-- A placed chunk, `struct grub_relocator_chunk` without its list link. -/
structure grub_relocator_chunk where
  target : Nat
  size : Nat
  deriving DecidableEq, Repr

/-- The record `struct grub_relocator`: the chunk list from head to tail. -/
structure grub_relocator where
  head : List grub_relocator_chunk
  deriving DecidableEq, Repr

/-- The function `get_physical_target_address`. -/
def get_physical_target_address (ch : grub_relocator_chunk) : Nat := ch.target

/-- The function `grub_relocator_new` (when `grub_zalloc` succeeds): an empty list. -/
def grub_relocator_new : grub_relocator := ⟨[]⟩

/-- The function `grub_relocator_disjoint`:
`(point >= (otarget + osize)) || ((point + size) < otarget)`. -/
def grub_relocator_disjoint (point size otarget osize : Nat) : Bool :=
  decide (point ≥ add64 otarget osize) || decide (add64 point size < otarget)

/-- The function `grub_relocator_within`:
`point >= target && point < (target + size)`. -/
def grub_relocator_within (point target size : Nat) : Bool :=
  decide (point ≥ target) && decide (point < add64 target size)

/-- The function `grub_relocator_end`: `target + size` of the last chunk of
the list, or 0 for the empty list. -/
def grub_relocator_end (rel : grub_relocator) : Nat :=
  match rel.head.getLast? with
  | some cp_last => add64 cp_last.target cp_last.size
  | none => 0

/-- What a call of an allocation function leaves behind: the returned
`grub_err_t`, the handle stored through `out` (`none` is `NULL`) and the
relocator with its chunk list. -/
structure alloc_result where
  err : grub_err_t
  out : Option grub_relocator_chunk
  rel : grub_relocator
  deriving DecidableEq, Repr

/-- The first loop of `grub_relocator_alloc_chunk_addr`: does the request
fail `grub_relocator_disjoint` against some chunk of the list? -/
def overlaps_existing (rel : grub_relocator) (target size : Nat) : Bool :=
  rel.head.any (fun cp => !grub_relocator_disjoint target size cp.target cp.size)

/-- The loop body test of the segment scan for segment `s`: with
`ptarget = s.start` and `psize = s.end - ptarget + 1`, both `target` and
`end` are within `[ptarget, ptarget + psize)`. -/
def seg_fits (target end_ : Nat) (s : grub_mmap_region) : Bool :=
  grub_relocator_within target s.start (add64 (sub64 s.end_ s.start) 1) &&
  grub_relocator_within end_ s.start (add64 (sub64 s.end_ s.start) 1)

/-- The segment scan of `grub_relocator_alloc_chunk_addr`: the value of `i`
when the `for` loop is left, `nsegs` when no segment fits. -/
def seg_scan (binfo : grub_bhyve_info) (target end_ : Nat) : Nat :=
  binfo.segs.findIdx (seg_fits target end_)

/-- The `SLIST_FOREACH` of the insertion: walk the list while
`cp->target <= target`, remembering `prev`, and link the new chunk after
`prev`, that is right before the first chunk with a greater target. -/
def insert_after_prev (ncp : grub_relocator_chunk) :
    List grub_relocator_chunk → List grub_relocator_chunk
  | [] => [ncp]
  | cp :: rest =>
    if cp.target > ncp.target then ncp :: cp :: rest
    else cp :: insert_after_prev ncp rest

/-- The list insertion of `grub_relocator_alloc_chunk_addr`: at the head if
the list is empty or its first chunk has a higher target, otherwise after
`prev`. -/
def insert_chunk (ncp : grub_relocator_chunk) (l : List grub_relocator_chunk) :
    List grub_relocator_chunk :=
  match l with
  | [] => ncp :: l
  | first :: _ =>
    if first.target > ncp.target then ncp :: l
    else insert_after_prev ncp l

/-- The function `grub_relocator_alloc_chunk_addr`.  `zalloc_ok` tells
whether the `grub_zalloc` of the chunk record returns a non-null pointer. -/
def grub_relocator_alloc_chunk_addr (binfo : grub_bhyve_info) (zalloc_ok : Bool)
    (rel : grub_relocator) (target size : Nat) : alloc_result :=
  let end_ := sub64 (add64 target size) 1
  if overlaps_existing rel target size then
    ⟨GRUB_ERR_BAD_ARGUMENT, none, rel⟩
  else if seg_scan binfo target end_ = binfo.nsegs then
    ⟨GRUB_ERR_OUT_OF_RANGE, none, rel⟩
  else if !zalloc_ok then
    ⟨GRUB_ERR_OUT_OF_MEMORY, none, rel⟩
  else
    ⟨GRUB_ERR_NONE, some ⟨target, size⟩, ⟨insert_chunk ⟨target, size⟩ rel.head⟩⟩

/-- The constant `ONE_MB` of `grub_relocator_alloc_chunk_align`. -/
def ONE_MB : Nat := 1024 * 1024

/-- Modelled from the spec: the macro `ALIGN_UP` comes from `grub/misc.h`,
which is not among the sources.  The spec's `align_up` rounds an address up
to the next multiple of `align`; GRUB computes it with a mask, as
`(addr + align - 1) & ~(align - 1)` in the 64-bit type of `addr`, which is
that rounding whenever `align` is a power of two (`ALIGN_UP_pow2`). -/
def ALIGN_UP (addr align : Nat) : Nat :=
  sub64 (add64 addr align) 1 &&& not64 (sub64 align 1)

/-- The search floor of `grub_relocator_alloc_chunk_align`: `min_addr`
after the low-memory filter
`if (min_addr < ONE_MB) { if ((align + size + ONE_MB) < max_addr) min_addr = ONE_MB; }`. -/
def search_floor (min_addr max_addr size align : Nat) : Nat :=
  if min_addr < ONE_MB then
    if add64 (add64 align size) ONE_MB < max_addr then ONE_MB else min_addr
  else min_addr

/-- The `for` loop of `grub_relocator_alloc_chunk_align`, entered with the
probe counter `k`, the candidate `addr` and the state `st` (current `err`,
`*out` and relocator).  `mem k` tells whether `grub_zalloc` succeeds during
probe `k`.  Each iteration uses one unit of `fuel`; `none` means the fuel
ran out before the loop was left. -/
def align_loop (binfo : grub_bhyve_info) (mem : Nat → Bool)
    (max_addr size align : Nat) :
    Nat → Nat → Nat → alloc_result → Option alloc_result
  | 0, _, _, _ => none
  | fuel + 1, k, addr, st =>
    if addr ≤ max_addr then
      let r := grub_relocator_alloc_chunk_addr binfo (mem k) st.rel addr size
      if r.err = GRUB_ERR_NONE then some r
      else align_loop binfo mem max_addr size align fuel (k + 1) (add64 addr align) r
    else some st

/-- The function `grub_relocator_alloc_chunk_align`.  `err0` is the
indeterminate initial value of the local `err` and `out0` the value `*out`
holds on entry; both are only visible when no candidate is probed. -/
def grub_relocator_alloc_chunk_align (binfo : grub_bhyve_info) (mem : Nat → Bool)
    (err0 : grub_err_t) (out0 : Option grub_relocator_chunk) (fuel : Nat)
    (rel : grub_relocator) (min_addr max_addr size align : Nat) :
    Option alloc_result :=
  align_loop binfo mem max_addr size align fuel 0
    (ALIGN_UP (search_floor min_addr max_addr size align) align) ⟨err0, out0, rel⟩

/-- The constant `GB` of `bhyve_hostif.c`. -/
def GB : Nat := 1024 * 1024 * 1024

/-- The globals `bhyve_g2h` (its two sizes) and `bhyve_info` that
`grub_emu_bhyve_init` fills in. -/
structure bhyve_globals where
  lomem : Nat
  himem : Nat
  info : grub_bhyve_info
  deriving DecidableEq, Repr

/-- The function `grub_emu_bhyve_init` on its successful path, from the guest
memory size `memsz` and the value `lomemsz` of `vm_get_lowmem_limit`: the
guest-to-host sizes and the segment table.  `bootsz` is
`sizeof(bhyve_gdt)`, twenty 16-bit words. -/
def grub_emu_bhyve_init (memsz lomemsz : Nat) : bhyve_globals :=
  { lomem := if memsz ≥ lomemsz then lomemsz else memsz
    himem := if memsz ≥ lomemsz then sub64 memsz lomemsz else 0
    info :=
      { bootsz := 40
        segs :=
          [⟨0, 640 * 1024 - 1, GRUB_MEMORY_AVAILABLE⟩,
           ⟨1024 * 1024, if memsz > lomemsz then lomemsz else memsz, GRUB_MEMORY_AVAILABLE⟩] ++
          (if memsz > lomemsz then
            [⟨4 * GB, add64 (sub64 memsz lomemsz) (4 * GB), GRUB_MEMORY_AVAILABLE⟩]
           else []) } }

/-- One call of the allocation interface, with what the environment
contributes to it: the outcome of `grub_zalloc` (per probe for the aligned
search), and for the aligned search the indeterminate initial `err` and the
value `*out` holds on entry. -/
inductive alloc_call where
  | chunk_addr (zalloc_ok : Bool) (target size : Nat)
  | chunk_align (mem : Nat → Bool) (err0 : grub_err_t)
      (out0 : Option grub_relocator_chunk) (min_addr max_addr size align : Nat)

/-- The `size` argument of a call. -/
def alloc_call.size : alloc_call → Nat
  | .chunk_addr _ _ size => size
  | .chunk_align _ _ _ _ _ size _ => size

/-- The highest address a call may hand to the placement: `target` for
`grub_relocator_alloc_chunk_addr`, `max_addr` for the aligned search. -/
def alloc_call.top : alloc_call → Nat
  | .chunk_addr _ target _ => target
  | .chunk_align _ _ _ _ max_addr _ _ => max_addr

/-- A sequence of allocation calls applied to a relocator; `fuel` bounds the
probes of each aligned search, and `none` means that a search did not
finish within it. -/
def run_calls (binfo : grub_bhyve_info) (fuel : Nat) :
    List alloc_call → grub_relocator → Option grub_relocator
  | [], rel => some rel
  | .chunk_addr zalloc_ok target size :: cs, rel =>
    run_calls binfo fuel cs
      (grub_relocator_alloc_chunk_addr binfo zalloc_ok rel target size).rel
  | .chunk_align mem err0 out0 min_addr max_addr size align :: cs, rel =>
    match grub_relocator_alloc_chunk_align binfo mem err0 out0 fuel rel
        min_addr max_addr size align with
    | none => none
    | some r => run_calls binfo fuel cs r.rel

/-- The ranges `[t, t + s)` and `[ot, ot + os)` have an address in common. -/
def shares_address (t s ot os : Nat) : Prop :=
  ∃ a, (t ≤ a ∧ a < t + s) ∧ (ot ≤ a ∧ a < ot + os)

/-- Every address of `[t, t + s)` lies in the segment `[seg.start, seg.end]`. -/
def range_in_seg (t s : Nat) (seg : grub_mmap_region) : Prop :=
  ∀ a, t ≤ a → a < t + s → seg.start ≤ a ∧ a ≤ seg.end_

/-- Two segments have no address in common. -/
def segs_apart (s1 s2 : grub_mmap_region) : Prop :=
  ∀ a, ¬ ((s1.start ≤ a ∧ a ≤ s1.end_) ∧ (s2.start ≤ a ∧ a ≤ s2.end_))

/-- The candidate address of probe `j` of the search loop entered at
`start`: `addr += align` applied `j` times. -/
def candidate (align : Nat) : Nat → Nat → Nat
  | start, 0 => start
  | start, j + 1 => candidate align (add64 start align) j

/-- The outcome of probe `j` of a search loop that was entered at `start`
with probe counter `k` on the relocator `rel`. -/
def probe (binfo : grub_bhyve_info) (mem : Nat → Bool) (rel : grub_relocator)
    (size align start k j : Nat) : alloc_result :=
  grub_relocator_alloc_chunk_addr binfo (mem (k + j)) rel (candidate align start j) size

/-- The range `[target, target + size)` lies inside a declared segment,
which is available if every declared segment is, and is the only declared
segment containing the range if the declared segments are pairwise apart. -/
def in_declared_segment (binfo : grub_bhyve_info) (target size : Nat) : Prop :=
  ∃ s ∈ binfo.segs, range_in_seg target size s ∧
    ((∀ s' ∈ binfo.segs, s'.type = GRUB_MEMORY_AVAILABLE) →
      s.type = GRUB_MEMORY_AVAILABLE) ∧
    (binfo.segs.Pairwise segs_apart →
      ∀ s' ∈ binfo.segs, range_in_seg target size s' → s' = s)

/-- The segment table `grub_emu_bhyve_init` declares for a 256 MiB guest
whose low-memory limit is 3 GiB. -/
def binfo_256M : grub_bhyve_info := (grub_emu_bhyve_init (256 * 1024 * 1024) (3 * GB)).info

/-- A chunk has a positive size and its range ends below `2 ^ 64`. -/
def chunk_ok (c : grub_relocator_chunk) : Prop :=
  0 < c.size ∧ c.target + c.size < U64

/-- The chunk `a` ends at or before the start of the chunk `b`. -/
def chunk_before (a b : grub_relocator_chunk) : Prop :=
  a.target + a.size ≤ b.target

/-- The list invariant of a relocator: from head to tail every chunk ends
at or before the start of each later one, and every chunk is `chunk_ok`. -/
def rel_inv (rel : grub_relocator) : Prop :=
  rel.head.Pairwise chunk_before ∧ ∀ c ∈ rel.head, chunk_ok c

/-- A call has a positive size and cannot place a range that passes
`2 ^ 64`: `size > 0` and `top + size <= 2 ^ 64`. -/
def alloc_call.no_wrap (c : alloc_call) : Prop :=
  0 < c.size ∧ c.top + c.size ≤ U64

/-- The segment table of the low-memory scenario of the spec: `[0, 640 KiB)`
and `[1 MiB, 16 MiB)`, both available. -/
def binfo_16M : grub_bhyve_info :=
  ⟨40, [⟨0, 640 * 1024 - 1, GRUB_MEMORY_AVAILABLE⟩,
        ⟨1024 * 1024, 16 * 1024 * 1024 - 1, GRUB_MEMORY_AVAILABLE⟩]⟩

/-- Probe `k` of a search that starts at `start` on the relocator `rel` is
accepted: `grub_relocator_alloc_chunk_addr` at `start + k * align` returns
`GRUB_ERR_NONE`. -/
def accepted (binfo : grub_bhyve_info) (mem : Nat → Bool) (rel : grub_relocator)
    (size align start k : Nat) : Prop :=
  (grub_relocator_alloc_chunk_addr binfo (mem k) rel (start + k * align) size).err
    = GRUB_ERR_NONE

/-- Number of values of a 32-bit unsigned integer, `2 ^ 32`. -/
def U32 : Nat := 4294967296

/-- The constants `GUEST_NULL_SEL`, `GUEST_CODE_SEL`, `GUEST_DATA_SEL` and
`GUEST_TSS_SEL` of `bhyve_hostif.c`: indices into the descriptor table. -/
def GUEST_NULL_SEL : Nat := 0

/-- See `GUEST_NULL_SEL`. -/
def GUEST_CODE_SEL : Nat := 2

/-- See `GUEST_NULL_SEL`. -/
def GUEST_DATA_SEL : Nat := 3

/-- See `GUEST_NULL_SEL`. -/
def GUEST_TSS_SEL : Nat := 4

/-- The constant `GUEST_GDTR_LIMIT` of `bhyve_hostif.c`, `5 * 8 - 1`. -/
def GUEST_GDTR_LIMIT : Nat := 5 * 8 - 1

/-- The constant `DESC_UNUSABLE` of `bhyve_hostif.c`. -/
def DESC_UNUSABLE : Nat := 0x00010000

/-- The array `bhyve_gdt` of `bhyve_hostif.c`: twenty 16-bit words, five
descriptors of four words each. -/
def bhyve_gdt : List Nat :=
  [0x0000, 0x0000, 0x0000, 0x0000,
   0x0000, 0x0000, 0x0000, 0x0000,
   0xffff, 0x0000, 0x9a00, 0x00cf,
   0xffff, 0x0000, 0x9200, 0x00cf,
   0x0000, 0x0000, 0x8900, 0x0080]

/-- The value of `sizeof(bhyve_gdt)` in bytes. -/
def sizeof_bhyve_gdt : Nat := 2 * bhyve_gdt.length

/-- Modelled from the spec: the macro `GSEL(s, r)` of `x86/segments.h`, which
is not among the sources, builds a selector from a table index and a
privilege level: `(s << 3) | r`. -/
def GSEL (s r : Nat) : Nat := (s <<< 3) ||| r

/-- Modelled from the spec: the kernel privilege level `SEL_KPL` of
`x86/segments.h`, which is not among the sources. -/
def SEL_KPL : Nat := 0

/-- Modelled from the spec: the protection-enable bit `CR0_PE` of control
register 0 (`x86/specialreg.h`, not among the sources). -/
def CR0_PE : Nat := 0x00000001

/-- Modelled from the spec: the paging bit `CR0_PG` of control register 0
(`x86/specialreg.h`, not among the sources). -/
def CR0_PG : Nat := 0x80000000

/-- Modelled from the spec: the register names of `machine/vmm.h`, which is
not among the sources, that `grub_emu_bhyve_boot32` writes. -/
inductive vm_reg where
  | VM_REG_GUEST_CR0 | VM_REG_GUEST_CR4 | VM_REG_GUEST_RFLAGS
  | VM_REG_GUEST_CS | VM_REG_GUEST_DS | VM_REG_GUEST_ES | VM_REG_GUEST_FS
  | VM_REG_GUEST_GS | VM_REG_GUEST_SS | VM_REG_GUEST_TR | VM_REG_GUEST_LDTR
  | VM_REG_GUEST_GDTR | VM_REG_GUEST_RIP | VM_REG_GUEST_RSP
  | VM_REG_GUEST_RSI | VM_REG_GUEST_RBP | VM_REG_GUEST_RDI | VM_REG_GUEST_RBX
  | VM_REG_GUEST_RAX | VM_REG_GUEST_RCX | VM_REG_GUEST_RDX
  deriving DecidableEq, Repr

open vm_reg

/-- Modelled from the spec: `struct grub_relocator32_state` of
`grub/i386/relocator.h`, which is not among the sources: the 32-bit register
values the loader hands over, the Boot Register State of the spec. -/
structure grub_relocator32_state where
  esp : Nat
  ebp : Nat
  eax : Nat
  ebx : Nat
  ecx : Nat
  edx : Nat
  eip : Nat
  esi : Nat
  edi : Nat
  deriving DecidableEq, Repr

/-- What `grub_emu_bhyve_boot32` does to the outside, in program order: a
`vm_set_register`, a `vm_set_desc`, the `memcpy` of `bhyve_gdt` to the host
view of the guest-physical address `gpa`, the call of `grub_reboot` (the
boot-completion signal), and the end of the process on a failed `assert`
or a null handle. -/
inductive vm_event where
  | set_register (reg : vm_reg) (val : Nat)
  | set_desc (reg : vm_reg) (base limit access : Nat)
  | copy_gdt (gpa : Nat)
  | reboot
  | abort
  deriving DecidableEq, Repr

/-- The event is a call inside an `assert (... == 0)`. -/
def vm_event.asserted : vm_event → Bool
  | .set_register _ _ => true
  | .set_desc _ _ _ _ => true
  | _ => false

/-- The register and descriptor writes and the table copy of
`grub_emu_bhyve_boot32 (bt, rs)`, in program order. -/
def boot32_writes (bt : Nat) (rs : grub_relocator32_state) : List vm_event :=
  [.set_register VM_REG_GUEST_CR0 CR0_PE,
   .set_register VM_REG_GUEST_CR4 0,
   .set_register VM_REG_GUEST_RFLAGS 0x2,
   .set_desc VM_REG_GUEST_CS 0 0xffffffff 0x0000C09B,
   .set_desc VM_REG_GUEST_DS 0 0xffffffff 0x0000C093,
   .set_desc VM_REG_GUEST_ES 0 0xffffffff 0x0000C093,
   .set_desc VM_REG_GUEST_FS 0 0xffffffff 0x0000C093,
   .set_desc VM_REG_GUEST_GS 0 0xffffffff 0x0000C093,
   .set_desc VM_REG_GUEST_SS 0 0xffffffff 0x0000C093,
   .set_desc VM_REG_GUEST_TR 0x1000 0x67 0x0000008b,
   .set_desc VM_REG_GUEST_LDTR 0 0xffff (DESC_UNUSABLE ||| 0x82),
   .set_register VM_REG_GUEST_CS (GSEL GUEST_CODE_SEL SEL_KPL),
   .set_register VM_REG_GUEST_DS (GSEL GUEST_DATA_SEL SEL_KPL),
   .set_register VM_REG_GUEST_ES (GSEL GUEST_DATA_SEL SEL_KPL),
   .set_register VM_REG_GUEST_FS (GSEL GUEST_DATA_SEL SEL_KPL),
   .set_register VM_REG_GUEST_GS (GSEL GUEST_DATA_SEL SEL_KPL),
   .set_register VM_REG_GUEST_SS (GSEL GUEST_DATA_SEL SEL_KPL),
   .set_register VM_REG_GUEST_TR (GSEL GUEST_TSS_SEL SEL_KPL),
   .set_register VM_REG_GUEST_LDTR 0,
   .set_register VM_REG_GUEST_RIP rs.eip,
   .copy_gdt bt,
   .set_desc VM_REG_GUEST_GDTR bt GUEST_GDTR_LIMIT 0,
   .set_register VM_REG_GUEST_RSP rs.esp,
   .set_register VM_REG_GUEST_RSI rs.esi,
   .set_register VM_REG_GUEST_RBP rs.ebp,
   .set_register VM_REG_GUEST_RDI rs.edi,
   .set_register VM_REG_GUEST_RBX rs.ebx,
   .set_register VM_REG_GUEST_RAX rs.eax,
   .set_register VM_REG_GUEST_RCX rs.ecx,
   .set_register VM_REG_GUEST_RDX rs.edx]

/-- Straight-line execution of a list of writes from index `i` on: `vmok i`
tells whether the `i`-th call returns 0; a failed `assert` ends the process,
and the events `rest` follow only when every write went through. -/
def perform (vmok : Nat → Bool) : Nat → List vm_event → List vm_event → List vm_event
  | _, [], rest => rest
  | i, e :: es, rest =>
    if e.asserted && !vmok i then [.abort]
    else e :: perform vmok (i + 1) es rest

/-- The function `grub_emu_bhyve_boot32`, as the trace of its events.  `bt`
is a `grub_uint32_t`; `grub_reboot` is called at the end `if (bt)`. -/
def grub_emu_bhyve_boot32 (vmok : Nat → Bool) (bt : Nat)
    (rs : grub_relocator32_state) : List vm_event :=
  perform vmok 0 (boot32_writes bt rs) (if bt ≠ 0 then [.reboot] else [])

/-- The value a trace leaves in a register: that of the last
`vm_set_register` on it. -/
def vcpu_register (r : vm_reg) : List vm_event → Option Nat
  | [] => none
  | e :: es =>
    match vcpu_register r es with
    | some v => some v
    | none =>
      match e with
      | .set_register r' v => if r' = r then some v else none
      | _ => none

/-- The descriptor `(base, limit, access)` a trace leaves in a register:
that of the last `vm_set_desc` on it. -/
def vcpu_desc (r : vm_reg) : List vm_event → Option (Nat × Nat × Nat)
  | [] => none
  | e :: es =>
    match vcpu_desc r es with
    | some d => some d
    | none =>
      match e with
      | .set_desc r' b l a => if r' = r then some (b, l, a) else none
      | _ => none

/-- The guest-physical address the descriptor table was copied to. -/
def gdt_copied_to : List vm_event → Option Nat
  | [] => none
  | e :: es =>
    match gdt_copied_to es with
    | some a => some a
    | none =>
      match e with
      | .copy_gdt gpa => some gpa
      | _ => none

/-- What a call of `grub_relocator32_boot` leaves behind: the value of
`err` at its `return` (which is only reached when `grub_reboot` was not
called), the relocator, the handle `ch` and the trace of
`grub_emu_bhyve_boot32`. -/
structure boot_result where
  err : grub_err_t
  rel : grub_relocator
  ch : Option grub_relocator_chunk
  trace : List vm_event
  deriving DecidableEq, Repr

/-- The part of `grub_relocator32_boot` after its first call, whose result is
`r1`: the fallback request `if (err)`, and `grub_emu_bhyve_boot32` when `err`
is `GRUB_ERR_NONE`.  The 64-bit target is converted to the `grub_uint32_t`
parameter of `grub_emu_bhyve_boot32`. -/
def boot32_after_search (binfo : grub_bhyve_info) (zalloc_ok : Bool) (vmok : Nat → Bool)
    (r1 : alloc_result) (state : grub_relocator32_state) : boot_result :=
  let r2 :=
    if r1.err ≠ GRUB_ERR_NONE then
      grub_relocator_alloc_chunk_addr binfo zalloc_ok r1.rel
        (ALIGN_UP (grub_relocator_end r1.rel) 8) binfo.bootsz
    else r1
  { err := r2.err
    rel := r2.rel
    ch := r2.out
    trace :=
      if r2.err = GRUB_ERR_NONE then
        match r2.out with
        | some ch => grub_emu_bhyve_boot32 vmok (get_physical_target_address ch % U32) state
        | none => [.abort]
      else [] }

/-- The function `grub_relocator32_boot`.  `mem` gives the `grub_zalloc`
outcomes of the search probes, `zalloc_ok` that of the fallback request,
`vmok` the outcomes of the register writes; `err0` and `ch0` are the
indeterminate initial values of `err` and `ch`. -/
def grub_relocator32_boot (binfo : grub_bhyve_info) (mem : Nat → Bool) (zalloc_ok : Bool)
    (vmok : Nat → Bool) (err0 : grub_err_t) (ch0 : Option grub_relocator_chunk)
    (fuel : Nat) (rel : grub_relocator) (state : grub_relocator32_state) :
    Option boot_result :=
  match grub_relocator_alloc_chunk_align binfo mem err0 ch0 fuel rel
      0x0200 0xF000 binfo.bootsz 8 with
  | none => none
  | some r1 => some (boot32_after_search binfo zalloc_ok vmok r1 state)

/-- Modelled from the spec: a host pointer into one of the two mappings
that `vm_map_gpa` returns (`lomem_ptr + off` or `himem_ptr + off`); the
mappings themselves belong to the host interface, which is not among the
sources. -/
inductive host_ptr where
  | lomem (off : Nat)
  | himem (off : Nat)
  deriving DecidableEq, Repr

/-- The function `grub_emu_bhyve_virt`: `none` is the `NULL` result. -/
def grub_emu_bhyve_virt (g : bhyve_globals) (physaddr : Nat) : Option host_ptr :=
  if physaddr < g.lomem then some (.lomem physaddr)
  else if physaddr ≥ 4 * GB ∧ physaddr < add64 (4 * GB) g.himem then
    some (.himem (sub64 physaddr (4 * GB)))
  else none

/-- The register state of the 32-bit entry scenario of the spec: entry
address `0x00100000`, stack `0x00090000`. -/
def state_1M : grub_relocator32_state :=
  { esp := 0x00090000, ebp := 0, eax := 0, ebx := 0, ecx := 0, edx := 0,
    eip := 0x00100000, esi := 0x1000, edi := 0 }

/-- A segment table with low memory and a segment that reaches the top of
the 64-bit address space. -/
def binfo_top : grub_bhyve_info :=
  ⟨40, [⟨0, 640 * 1024 - 1, GRUB_MEMORY_AVAILABLE⟩,
        ⟨U64 - 0x1000, U64 - 2, GRUB_MEMORY_AVAILABLE⟩]⟩

/-- Descriptor `i` of the copied table: words `4 i` to `4 i + 3` of
`bhyve_gdt`. -/
def gdt_entry (i : Nat) : List Nat := (bhyve_gdt.drop (4 * i)).take 4

/-- The table index a selector refers to (bits 3 and up). -/
def selector_index (sel : Nat) : Nat := sel >>> 3

/-- The descriptors of the copied table that are not null, in table order. -/
def non_null_entries : List (List Nat) :=
  ((List.range 5).map gdt_entry).filter (fun d => d ≠ [0, 0, 0, 0])

/-- Word `k` of a four-word descriptor of `bhyve_gdt` (0 when absent). -/
def desc_word (d : List Nat) (k : Nat) : Nat := d.getD k 0

/-- Modelled from the spec: the base of a descriptor under the x86 segment-descriptor layout: bits
0-15 in word 1, bits 16-23 in the low byte of word 2, bits 24-31 in the high
byte of word 3. -/
def entry_base (d : List Nat) : Nat :=
  desc_word d 1 + ((desc_word d 2 &&& 0xff) <<< 16) + ((desc_word d 3 >>> 8) <<< 24)

/-- Modelled from the spec: the 20-bit limit field of a descriptor: bits 0-15 in word 0, bits 16-19
in the low nibble of word 3. -/
def entry_limit_field (d : List Nat) : Nat :=
  desc_word d 0 + ((desc_word d 3 &&& 0xf) <<< 16)

/-- Modelled from the spec: the granularity flag of a descriptor, bit 7 of word 3. -/
def entry_granular (d : List Nat) : Bool := (desc_word d 3).testBit 7

/-- Modelled from the spec: the limit of a descriptor in bytes: with the granularity flag set the
limit field counts 4 KiB pages. -/
def entry_byte_limit (d : List Nat) : Nat :=
  if entry_granular d then (entry_limit_field d <<< 12) ||| 0xfff else entry_limit_field d

/-- Modelled from the spec: the type and flags of a descriptor in the layout of the access word that
`vm_set_desc` takes: type, S, DPL and P (the high byte of word 2) in bits
0-7, and AVL, L, D/B and G (the high nibble of the low byte of word 3) in
bits 12-15; bit 16 is `DESC_UNUSABLE`. -/
def entry_access (d : List Nat) : Nat :=
  (desc_word d 2 >>> 8) ||| (((desc_word d 3 >>> 4) &&& 0xf) <<< 12)

/-- The table entry `d` decodes to the descriptor `(base, limit, access)`,
the type being compared with bit `b` set on both sides (the accessed bit,
bit 0, of a code or data descriptor; the busy bit, bit 1, of a task-state
descriptor). -/
def entry_matches (d : List Nat) (b : Nat) (p : Nat × Nat × Nat) : Prop :=
  entry_base d = p.1 ∧ entry_byte_limit d = p.2.1 ∧
    entry_access d ||| 2 ^ b = p.2.2 ||| 2 ^ b

/-- The globals `grub_emu_bhyve_init` computes for an 8 GiB guest whose
low-memory limit is 3 GiB: 5 GiB of it lie above 4 GiB. -/
def globals_8G : bhyve_globals := grub_emu_bhyve_init (8 * GB) (3 * GB)

/-- The globals of a 256 MiB guest whose low-memory limit is 3 GiB. -/
def globals_256M : bhyve_globals := grub_emu_bhyve_init (256 * 1024 * 1024) (3 * GB)

/-! ## Facts about single calls -/

theorem seg_fits_spec {target e : Nat} {s : grub_mmap_region}
    (h : seg_fits target e s = true) :
    (s.start ≤ target ∧ target ≤ s.end_) ∧ (s.start ≤ e ∧ e ≤ s.end_) ∧
      target + 1 < U64 ∧ e + 1 < U64 := by
  simp only [seg_fits, grub_relocator_within, add64, sub64, U64, Bool.and_eq_true,
    decide_eq_true_eq] at h
  unfold U64
  omega

theorem seg_fits_of {target e : Nat} {s : grub_mmap_region}
    (h1 : s.start ≤ target) (h2 : target ≤ e) (h3 : e ≤ s.end_)
    (h4 : s.end_ + 1 < U64) : seg_fits target e s = true := by
  simp only [seg_fits, grub_relocator_within, add64, sub64, U64, Bool.and_eq_true,
    decide_eq_true_eq] at *
  omega

theorem overlaps_existing_iff (rel : grub_relocator) (target size : Nat) :
    overlaps_existing rel target size = true ↔
      ∃ c ∈ rel.head, grub_relocator_disjoint target size c.target c.size = false := by
  simp [overlaps_existing, List.any_eq_true]

theorem overlaps_existing_false_iff (rel : grub_relocator) (target size : Nat) :
    overlaps_existing rel target size = false ↔
      ∀ c ∈ rel.head, grub_relocator_disjoint target size c.target c.size = true := by
  simp [overlaps_existing, List.any_eq_false]

theorem disjoint_false_of_shares {t s ot os : Nat} (h : shares_address t s ot os)
    (hreq : t + s < U64) (hch : ot + os < U64) :
    grub_relocator_disjoint t s ot os = false := by
  obtain ⟨a, ⟨h1, h2⟩, h3, h4⟩ := h
  have e1 : add64 ot os = ot + os := Nat.mod_eq_of_lt hch
  have e2 : add64 t s = t + s := Nat.mod_eq_of_lt hreq
  simp only [grub_relocator_disjoint, e1, e2, Bool.or_eq_false_iff, decide_eq_false_iff_not]
  omega

theorem disjoint_true_spec {t s ot os : Nat} (h : grub_relocator_disjoint t s ot os = true)
    (hreq : t + s < U64) (hch : ot + os < U64) :
    ot + os ≤ t ∨ t + s < ot := by
  have e1 : add64 ot os = ot + os := Nat.mod_eq_of_lt hch
  have e2 : add64 t s = t + s := Nat.mod_eq_of_lt hreq
  simpa [grub_relocator_disjoint, e1, e2] using h

theorem alloc_addr_overlap (binfo : grub_bhyve_info) (zalloc_ok : Bool)
    (rel : grub_relocator) (target size : Nat)
    (h : overlaps_existing rel target size = true) :
    grub_relocator_alloc_chunk_addr binfo zalloc_ok rel target size =
      ⟨GRUB_ERR_BAD_ARGUMENT, none, rel⟩ := by
  simp [grub_relocator_alloc_chunk_addr, h]

theorem alloc_addr_ok_iff (binfo : grub_bhyve_info) (zalloc_ok : Bool)
    (rel : grub_relocator) (target size : Nat) :
    (grub_relocator_alloc_chunk_addr binfo zalloc_ok rel target size).err = GRUB_ERR_NONE ↔
      overlaps_existing rel target size = false ∧
      (∃ s ∈ binfo.segs, seg_fits target (sub64 (add64 target size) 1) s = true) ∧
      zalloc_ok = true := by
  unfold grub_relocator_alloc_chunk_addr
  simp only [seg_scan, grub_bhyve_info.nsegs]
  by_cases h1 : overlaps_existing rel target size = true
  · simp [h1]
  · by_cases h2 : List.findIdx (seg_fits target (sub64 (add64 target size) 1)) binfo.segs
        = binfo.segs.length
    · have h2' := h2
      rw [List.findIdx_eq_length] at h2'
      simp only [h1, h2, if_true, if_false]
      constructor
      · intro h; cases h
      · rintro ⟨_, ⟨s, hs, hf⟩, _⟩
        rw [h2' s hs] at hf; cases hf
    · have h2' : ∃ s ∈ binfo.segs, seg_fits target (sub64 (add64 target size) 1) s = true := by
        by_contra hc
        apply h2
        rw [List.findIdx_eq_length]
        intro x hx
        by_contra hx'
        exact hc ⟨x, hx, by simpa using hx'⟩
      cases zalloc_ok <;> simp [h1, h2, h2']

theorem alloc_addr_ok_result (binfo : grub_bhyve_info) (zalloc_ok : Bool)
    (rel : grub_relocator) (target size : Nat)
    (h : (grub_relocator_alloc_chunk_addr binfo zalloc_ok rel target size).err = GRUB_ERR_NONE) :
    grub_relocator_alloc_chunk_addr binfo zalloc_ok rel target size =
      ⟨GRUB_ERR_NONE, some ⟨target, size⟩, ⟨insert_chunk ⟨target, size⟩ rel.head⟩⟩ := by
  unfold grub_relocator_alloc_chunk_addr at h ⊢
  simp only at h ⊢
  split_ifs at h ⊢
  rfl

theorem alloc_addr_fail_result (binfo : grub_bhyve_info) (zalloc_ok : Bool)
    (rel : grub_relocator) (target size : Nat)
    (h : (grub_relocator_alloc_chunk_addr binfo zalloc_ok rel target size).err ≠ GRUB_ERR_NONE) :
    (grub_relocator_alloc_chunk_addr binfo zalloc_ok rel target size).out = none ∧
    (grub_relocator_alloc_chunk_addr binfo zalloc_ok rel target size).rel = rel ∧
    ((grub_relocator_alloc_chunk_addr binfo zalloc_ok rel target size).err = GRUB_ERR_BAD_ARGUMENT ∨
     (grub_relocator_alloc_chunk_addr binfo zalloc_ok rel target size).err = GRUB_ERR_OUT_OF_RANGE ∨
     (grub_relocator_alloc_chunk_addr binfo zalloc_ok rel target size).err = GRUB_ERR_OUT_OF_MEMORY) := by
  unfold grub_relocator_alloc_chunk_addr at h ⊢
  simp only at h ⊢
  split_ifs at h ⊢ <;> simp_all

theorem end_no_wrap {target size : Nat} (hsize : 0 < size) (hreq : target + size ≤ U64) :
    sub64 (add64 target size) 1 = target + size - 1 := by
  simp only [add64, sub64, U64] at *
  omega

/-- A successful call whose request does not pass `2 ^ 64` places the
range inside a declared segment. -/
theorem alloc_addr_in_segment (binfo : grub_bhyve_info) (zalloc_ok : Bool)
    (rel : grub_relocator) (target size : Nat)
    (hsize : 0 < size) (hreq : target + size ≤ U64)
    (hok : (grub_relocator_alloc_chunk_addr binfo zalloc_ok rel target size).err
      = GRUB_ERR_NONE) :
    in_declared_segment binfo target size := by
  obtain ⟨-, ⟨s, hs, hfit⟩, -⟩ := (alloc_addr_ok_iff binfo zalloc_ok rel target size).1 hok
  rw [end_no_wrap hsize hreq] at hfit
  obtain ⟨⟨h1, h2⟩, ⟨h3, h4⟩, -, -⟩ := seg_fits_spec hfit
  have hin : range_in_seg target size s := by
    intro a ha1 ha2
    omega
  refine ⟨s, hs, hin, fun hav => hav s hs, ?_⟩
  intro hpw s' hs' hin'
  by_contra hne
  have hsym : Symmetric segs_apart := fun x y hxy a ha => hxy a ⟨ha.2, ha.1⟩
  exact hpw.forall hsym hs' hs hne target
    ⟨hin' target (Nat.le_refl _) (by omega), h1, h2⟩

/-! ## The chunk list -/

theorem insert_chunk_eq (ncp : grub_relocator_chunk) (l : List grub_relocator_chunk) :
    insert_chunk ncp l = insert_after_prev ncp l := by
  cases l with
  | nil => rfl
  | cons first rest =>
    simp only [insert_chunk, insert_after_prev]
    split_ifs <;> rfl

theorem insert_after_prev_split (ncp : grub_relocator_chunk) (l : List grub_relocator_chunk) :
    ∃ l1 l2, l = l1 ++ l2 ∧ insert_after_prev ncp l = l1 ++ ncp :: l2 ∧
      (∀ c ∈ l1, c.target ≤ ncp.target) ∧ (∀ c, l2.head? = some c → ncp.target < c.target) := by
  induction l with
  | nil => exact ⟨[], [], rfl, rfl, by simp, by simp⟩
  | cons cp rest ih =>
    by_cases h : cp.target > ncp.target
    · refine ⟨[], cp :: rest, rfl, by simp [insert_after_prev, h], by simp, ?_⟩
      intro c hc
      simp only [List.head?_cons, Option.some.injEq] at hc
      exact hc ▸ h
    · obtain ⟨l1, l2, h1, h2, h3, h4⟩ := ih
      refine ⟨cp :: l1, l2, by simp [h1], by simp [insert_after_prev, h, h2], ?_, h4⟩
      intro c hc
      rcases List.mem_cons.1 hc with rfl | hc
      · omega
      · exact h3 c hc

theorem mem_insert_after_prev (ncp c : grub_relocator_chunk) (l : List grub_relocator_chunk) :
    c ∈ insert_after_prev ncp l ↔ c = ncp ∨ c ∈ l := by
  obtain ⟨l1, l2, h1, h2, -, -⟩ := insert_after_prev_split ncp l
  rw [h2, h1]
  simp only [List.mem_append, List.mem_cons]
  tauto

theorem pairwise_insert_after_prev (ncp : grub_relocator_chunk) (hn : 0 < ncp.size) :
    ∀ l : List grub_relocator_chunk, l.Pairwise chunk_before → (∀ c ∈ l, 0 < c.size) →
      (∀ c ∈ l, c.target + c.size ≤ ncp.target ∨ ncp.target + ncp.size < c.target) →
      (insert_after_prev ncp l).Pairwise chunk_before := by
  intro l
  induction l with
  | nil => intro _ _ _; simp [insert_after_prev]
  | cons cp rest ih =>
    intro hp hpos hd
    rw [List.pairwise_cons] at hp
    have hcp := hd cp (List.mem_cons_self _ _)
    have hcpos := hpos cp (List.mem_cons_self _ _)
    by_cases h : cp.target > ncp.target
    · simp only [insert_after_prev, h, if_true]
      rw [List.pairwise_cons]
      refine ⟨?_, List.pairwise_cons.2 hp⟩
      intro x hx
      rcases List.mem_cons.1 hx with rfl | hx
      · simp only [chunk_before]; omega
      · have h1 := hp.1 x hx
        have h2 := hd x (List.mem_cons_of_mem _ hx)
        simp only [chunk_before] at h1 ⊢
        omega
    · simp only [insert_after_prev, h, if_false]
      rw [List.pairwise_cons]
      refine ⟨?_, ih hp.2 (fun c hc => hpos c (List.mem_cons_of_mem _ hc))
        (fun c hc => hd c (List.mem_cons_of_mem _ hc))⟩
      intro x hx
      rcases (mem_insert_after_prev ncp x rest).1 hx with rfl | hx
      · simp only [chunk_before]; omega
      · exact hp.1 x hx

/-- A call of `grub_relocator_alloc_chunk_addr` whose request does not pass
`2 ^ 64` keeps the list invariant. -/
theorem alloc_addr_rel_inv (binfo : grub_bhyve_info) (zalloc_ok : Bool)
    (rel : grub_relocator) (target size : Nat) (hinv : rel_inv rel)
    (hsize : 0 < size) (hreq : target + size ≤ U64) :
    rel_inv (grub_relocator_alloc_chunk_addr binfo zalloc_ok rel target size).rel := by
  by_cases hok : (grub_relocator_alloc_chunk_addr binfo zalloc_ok rel target size).err
      = GRUB_ERR_NONE
  · obtain ⟨hov, ⟨s, -, hfit⟩, -⟩ := (alloc_addr_ok_iff binfo zalloc_ok rel target size).1 hok
    rw [alloc_addr_ok_result binfo zalloc_ok rel target size hok]
    rw [end_no_wrap hsize hreq] at hfit
    have hlt : target + size < U64 := by
      have := (seg_fits_spec hfit).2.2.2
      omega
    have hdis : ∀ c ∈ rel.head, c.target + c.size ≤ target ∨ target + size < c.target :=
      fun c hc => disjoint_true_spec ((overlaps_existing_false_iff rel target size).1 hov c hc)
        hlt (hinv.2 c hc).2
    constructor
    · show (insert_chunk ⟨target, size⟩ rel.head).Pairwise chunk_before
      rw [insert_chunk_eq]
      exact pairwise_insert_after_prev ⟨target, size⟩ hsize rel.head hinv.1
        (fun c hc => (hinv.2 c hc).1) hdis
    · intro c hc
      change c ∈ insert_chunk ⟨target, size⟩ rel.head at hc
      rw [insert_chunk_eq, mem_insert_after_prev] at hc
      rcases hc with rfl | hc
      · exact ⟨hsize, hlt⟩
      · exact hinv.2 c hc
  · rw [(alloc_addr_fail_result binfo zalloc_ok rel target size hok).2.1]
    exact hinv

theorem rel_inv_new : rel_inv grub_relocator_new :=
  ⟨List.Pairwise.nil, fun _ h => absurd h (List.not_mem_nil _)⟩

theorem not_shares_of_chunk_before {a b : grub_relocator_chunk} (h : chunk_before a b) :
    ¬ shares_address a.target a.size b.target b.size := by
  rintro ⟨x, ⟨h1, h2⟩, h3, h4⟩
  simp only [chunk_before] at h
  omega

/-! ## The search loop -/

theorem align_loop_spec (binfo : grub_bhyve_info) (mem : Nat → Bool)
    (max_addr size align : Nat) :
    ∀ (fuel k addr : Nat) (st r : alloc_result),
      align_loop binfo mem max_addr size align fuel k addr st = some r →
      ∃ j, j < fuel ∧
        (∀ i, i < j → candidate align addr i ≤ max_addr ∧
          (probe binfo mem st.rel size align addr k i).err ≠ GRUB_ERR_NONE) ∧
        ((candidate align addr j ≤ max_addr ∧
            r = probe binfo mem st.rel size align addr k j ∧ r.err = GRUB_ERR_NONE) ∨
         (max_addr < candidate align addr j ∧ r.rel = st.rel ∧
            ((j = 0 ∧ r = st) ∨
             (0 < j ∧ r = probe binfo mem st.rel size align addr k (j - 1))))) := by
  intro fuel
  induction fuel with
  | zero => intro k addr st r h; simp [align_loop] at h
  | succ fuel ih =>
    intro k addr st r h
    rw [align_loop] at h
    by_cases hle : addr ≤ max_addr
    · rw [if_pos hle] at h
      simp only at h
      by_cases hok : (grub_relocator_alloc_chunk_addr binfo (mem k) st.rel addr size).err
          = GRUB_ERR_NONE
      · rw [if_pos hok] at h
        refine ⟨0, Nat.succ_pos _, fun i hi => absurd hi (Nat.not_lt_zero i), Or.inl ?_⟩
        simp only [candidate, probe, Nat.add_zero]
        injection h with h
        exact ⟨hle, h.symm, h ▸ hok⟩
      · rw [if_neg hok] at h
        obtain ⟨hout, hrel, _⟩ := alloc_addr_fail_result binfo (mem k) st.rel addr size hok
        obtain ⟨j, hj, hfail, hres⟩ := ih (k + 1) (add64 addr align) _ r h
        rw [hrel] at hfail hres
        have hk : ∀ i, k + 1 + i = k + (i + 1) := fun i => by omega
        refine ⟨j + 1, Nat.succ_lt_succ hj, ?_, ?_⟩
        · intro i hi
          cases i with
          | zero => exact ⟨hle, by simpa [probe, candidate] using hok⟩
          | succ i =>
            have := hfail i (by omega)
            simpa [probe, candidate, hk] using this
        · rcases hres with ⟨h1, h2, h3⟩ | ⟨h1, h2, h3⟩
          · left
            refine ⟨by simpa [candidate] using h1, ?_, h3⟩
            simpa [probe, candidate, hk] using h2
          · right
            refine ⟨by simpa [candidate] using h1, h2, Or.inr ⟨Nat.succ_pos _, ?_⟩⟩
            rcases h3 with ⟨h0, h3⟩ | ⟨hpos, h3⟩
            · subst h0
              simpa [probe, candidate] using h3
            · obtain ⟨j', rfl⟩ : ∃ j', j = j' + 1 := ⟨j - 1, by omega⟩
              simpa [probe, candidate, hk] using h3
    · rw [if_neg hle] at h
      injection h with h
      refine ⟨0, Nat.succ_pos _, fun i hi => absurd hi (Nat.not_lt_zero i), Or.inr ?_⟩
      exact ⟨by simpa [candidate] using hle, by rw [h], Or.inl ⟨rfl, h.symm⟩⟩

theorem align_loop_success_of (binfo : grub_bhyve_info) (mem : Nat → Bool)
    (max_addr size align : Nat) :
    ∀ (j fuel k addr : Nat) (st : alloc_result), j < fuel →
      (∀ i, i < j → candidate align addr i ≤ max_addr ∧
          (probe binfo mem st.rel size align addr k i).err ≠ GRUB_ERR_NONE) →
      candidate align addr j ≤ max_addr →
      (probe binfo mem st.rel size align addr k j).err = GRUB_ERR_NONE →
      align_loop binfo mem max_addr size align fuel k addr st =
        some (probe binfo mem st.rel size align addr k j) := by
  intro j
  induction j with
  | zero =>
    intro fuel k addr st hf _ hle hok
    obtain ⟨f, rfl⟩ : ∃ f, fuel = f + 1 := ⟨fuel - 1, by omega⟩
    simp only [candidate, probe, Nat.add_zero] at hle hok ⊢
    rw [align_loop, if_pos hle]
    simp only [hok, if_true]
  | succ j ih =>
    intro fuel k addr st hf hfail hle hok
    obtain ⟨f, rfl⟩ : ∃ f, fuel = f + 1 := ⟨fuel - 1, by omega⟩
    have h0 := hfail 0 (Nat.succ_pos _)
    simp only [candidate, probe, Nat.add_zero] at h0
    obtain ⟨hout, hrel, _⟩ := alloc_addr_fail_result binfo (mem k) st.rel addr size h0.2
    have hk : ∀ i, k + 1 + i = k + (i + 1) := fun i => by omega
    rw [align_loop, if_pos h0.1]
    simp only [h0.2, if_false]
    rw [ih f (k + 1) (add64 addr align) _ (by omega)]
    · simp [probe, candidate, hk, hrel]
    · intro i hi
      have := hfail (i + 1) (by omega)
      simpa [probe, candidate, hk, hrel] using this
    · simpa [candidate] using hle
    · simpa [probe, candidate, hk, hrel] using hok

theorem align_loop_exhaust_of (binfo : grub_bhyve_info) (mem : Nat → Bool)
    (max_addr size align : Nat) :
    ∀ (j fuel k addr : Nat) (st : alloc_result), j < fuel →
      (∀ i, i < j → candidate align addr i ≤ max_addr ∧
          (probe binfo mem st.rel size align addr k i).err ≠ GRUB_ERR_NONE) →
      max_addr < candidate align addr j →
      align_loop binfo mem max_addr size align fuel k addr st =
        some (if j = 0 then st else probe binfo mem st.rel size align addr k (j - 1)) := by
  intro j
  induction j with
  | zero =>
    intro fuel k addr st hf _ hgt
    obtain ⟨f, rfl⟩ : ∃ f, fuel = f + 1 := ⟨fuel - 1, by omega⟩
    simp only [candidate] at hgt
    rw [align_loop, if_neg (by omega)]
    simp
  | succ j ih =>
    intro fuel k addr st hf hfail hgt
    obtain ⟨f, rfl⟩ : ∃ f, fuel = f + 1 := ⟨fuel - 1, by omega⟩
    have h0 := hfail 0 (Nat.succ_pos _)
    simp only [candidate, probe, Nat.add_zero] at h0
    obtain ⟨hout, hrel, _⟩ := alloc_addr_fail_result binfo (mem k) st.rel addr size h0.2
    have hk : ∀ i, k + 1 + i = k + (i + 1) := fun i => by omega
    rw [align_loop, if_pos h0.1]
    simp only [h0.2, if_false]
    rw [ih f (k + 1) (add64 addr align) _ (by omega)]
    · cases j with
      | zero => simp [probe, candidate]
      | succ j => simp [probe, candidate, hk, hrel]
    · intro i hi
      have := hfail (i + 1) (by omega)
      simpa [probe, candidate, hk, hrel] using this
    · simpa [candidate] using hgt

/-- The relocator a finished search leaves behind is the one it started
from or the result of a successful probe at a candidate `<= max_addr`. -/
theorem align_loop_rel (binfo : grub_bhyve_info) (mem : Nat → Bool)
    (max_addr size align fuel k addr : Nat) (st r : alloc_result)
    (h : align_loop binfo mem max_addr size align fuel k addr st = some r) :
    r.rel = st.rel ∨ ∃ zalloc_ok a, a ≤ max_addr ∧
      r = grub_relocator_alloc_chunk_addr binfo zalloc_ok st.rel a size ∧
      r.err = GRUB_ERR_NONE := by
  obtain ⟨j, -, -, hres⟩ := align_loop_spec binfo mem max_addr size align fuel k addr st r h
  rcases hres with ⟨h1, h2, h3⟩ | ⟨-, h2, -⟩
  · exact Or.inr ⟨mem (k + j), candidate align addr j, h1, h2, h3⟩
  · exact Or.inl h2

/-- A search that probes at least one candidate and returns
`GRUB_ERR_NONE` returns the result of a successful probe at an address
`<= max_addr`. -/
theorem alloc_chunk_align_ok_is_probe (binfo : grub_bhyve_info) (mem : Nat → Bool)
    (err0 : grub_err_t) (out0 : Option grub_relocator_chunk) (fuel : Nat)
    (rel : grub_relocator) (min_addr max_addr size align : Nat) (r : alloc_result)
    (hprobed : ALIGN_UP (search_floor min_addr max_addr size align) align ≤ max_addr)
    (hrun : grub_relocator_alloc_chunk_align binfo mem err0 out0 fuel rel
      min_addr max_addr size align = some r)
    (hok : r.err = GRUB_ERR_NONE) :
    ∃ zalloc_ok a, a ≤ max_addr ∧
      r = grub_relocator_alloc_chunk_addr binfo zalloc_ok rel a size ∧
      r.err = GRUB_ERR_NONE := by
  obtain ⟨j, -, hfail, hres⟩ := align_loop_spec binfo mem max_addr size align fuel 0 _ _ r hrun
  rcases hres with ⟨h1, h2, h3⟩ | ⟨h1, -, h3⟩
  · exact ⟨mem (0 + j), _, h1, h2, h3⟩
  · exfalso
    rcases h3 with ⟨h0, -⟩ | ⟨hpos, h3⟩
    · subst h0
      simp only [candidate] at h1
      omega
    · have := (hfail (j - 1) (by omega)).2
      rw [← h3] at this
      exact this hok

theorem run_calls_rel_inv (binfo : grub_bhyve_info) (fuel : Nat) :
    ∀ (calls : List alloc_call) (rel rel' : grub_relocator), rel_inv rel →
      (∀ c ∈ calls, c.no_wrap) → run_calls binfo fuel calls rel = some rel' → rel_inv rel' := by
  intro calls
  induction calls with
  | nil =>
    intro rel rel' hinv _ hrun
    simp only [run_calls, Option.some.injEq] at hrun
    exact hrun ▸ hinv
  | cons c cs ih =>
    intro rel rel' hinv hcalls hrun
    have hc := hcalls c (List.mem_cons_self _ _)
    have hcs : ∀ c ∈ cs, c.no_wrap := fun x hx => hcalls x (List.mem_cons_of_mem _ hx)
    cases c with
    | chunk_addr zalloc_ok target size =>
      simp only [run_calls] at hrun
      exact ih _ rel' (alloc_addr_rel_inv binfo zalloc_ok rel target size hinv hc.1 hc.2) hcs hrun
    | chunk_align mem err0 out0 min_addr max_addr size align =>
      simp only [run_calls] at hrun
      cases hr : grub_relocator_alloc_chunk_align binfo mem err0 out0 fuel rel
          min_addr max_addr size align with
      | none => rw [hr] at hrun; cases hrun
      | some r =>
        rw [hr] at hrun
        simp only at hrun
        refine ih _ rel' ?_ hcs hrun
        rcases align_loop_rel binfo mem max_addr size align fuel 0 _ _ r hr with h | h
        · rw [h]; exact hinv
        · obtain ⟨z, a, ha, hra, -⟩ := h
          rw [hra]
          have h1 : 0 < size := hc.1
          have h2 : max_addr + size ≤ U64 := hc.2
          exact alloc_addr_rel_inv binfo z rel a size hinv h1 (by omega)

/-! ## Alignment and candidates -/

theorem and_mask_pow2 (y e : Nat) (he : e ≤ 64) (hy : y < 2 ^ 64) :
    y &&& (2 ^ 64 - 1 - (2 ^ e - 1)) = y / 2 ^ e * 2 ^ e := by
  have hpos : 0 < 2 ^ e := Nat.two_pow_pos e
  have hlt : 2 ^ e - 1 < 2 ^ 64 := by
    have : 2 ^ e ≤ 2 ^ 64 := Nat.pow_le_pow_right (by decide) he
    omega
  have hm : 2 ^ 64 - 1 - (2 ^ e - 1) = 2 ^ 64 - (2 ^ e - 1 + 1) := by omega
  rw [hm]
  apply Nat.eq_of_testBit_eq
  intro i
  rw [Nat.testBit_and, Nat.testBit_two_pow_sub_succ hlt, Nat.testBit_two_pow_sub_one,
    Nat.mul_comm, Nat.testBit_mul_pow_two, ← Nat.shiftRight_eq_div_pow, Nat.testBit_shiftRight]
  by_cases h1 : i < e
  · have : ¬ i ≥ e := by omega
    simp [h1, this]
  · have h2 : i ≥ e := by omega
    have h3 : e + (i - e) = i := by omega
    by_cases h4 : i < 64
    · simp [h1, h2, h3, h4]
    · have : y.testBit i = false := by
        apply Nat.testBit_lt_two_pow
        exact lt_of_lt_of_le hy (Nat.pow_le_pow_right (by decide) (by omega))
      simp [h1, h2, h3, h4, this]

theorem U64_eq : U64 = 2 ^ 64 := by decide

theorem pow2_lt_U64 {e : Nat} (he : e < 64) : 2 ^ e < U64 := by
  rw [U64_eq]
  exact Nat.pow_lt_pow_right (by decide) he

theorem pow2_dvd_U64 {e : Nat} (he : e < 64) : 2 ^ e ∣ U64 := by
  rw [U64_eq]
  exact Nat.pow_dvd_pow 2 (by omega)

/-- For a power-of-two `align`, the mask of `ALIGN_UP` rounds
`addr + align - 1` (as computed in 64 bits) down to a multiple of `align`. -/
theorem ALIGN_UP_pow2 (addr e : Nat) (he : e < 64) :
    ALIGN_UP addr (2 ^ e) = sub64 (add64 addr (2 ^ e)) 1 / 2 ^ e * 2 ^ e := by
  have hlt := pow2_lt_U64 he
  have hpos : 0 < 2 ^ e := Nat.two_pow_pos e
  have h1 : sub64 (2 ^ e) 1 = 2 ^ e - 1 := by
    simp only [sub64, U64] at *
    omega
  have h2 : not64 (2 ^ e - 1) = 2 ^ 64 - 1 - (2 ^ e - 1) := by
    simp only [not64, U64] at *
    omega
  have h3 : sub64 (add64 addr (2 ^ e)) 1 < 2 ^ 64 := by
    rw [← U64_eq]
    exact Nat.mod_lt _ (by decide)
  rw [ALIGN_UP, h1, h2, and_mask_pow2 _ e (by omega) h3]

theorem ALIGN_UP_dvd (addr e : Nat) (he : e < 64) : 2 ^ e ∣ ALIGN_UP addr (2 ^ e) := by
  rw [ALIGN_UP_pow2 addr e he]
  exact Nat.dvd_mul_left _ _

/-- Without wraparound, `ALIGN_UP` of a power of two is the least multiple
of `align` that is at least `addr`. -/
theorem ALIGN_UP_least (addr e : Nat) (he : e < 64) (hno : addr + 2 ^ e ≤ U64) :
    addr ≤ ALIGN_UP addr (2 ^ e) ∧
      ∀ a, addr ≤ a → 2 ^ e ∣ a → ALIGN_UP addr (2 ^ e) ≤ a ∧ 2 ^ e ∣ a - ALIGN_UP addr (2 ^ e) := by
  have hpos : 0 < 2 ^ e := Nat.two_pow_pos e
  rw [ALIGN_UP_pow2 addr e he, end_no_wrap hpos hno]
  constructor
  · have h1 := Nat.div_add_mod (addr + 2 ^ e - 1) (2 ^ e)
    have h2 := Nat.mod_lt (addr + 2 ^ e - 1) hpos
    rw [Nat.mul_comm] at h1
    omega
  · rintro a ha ⟨q, rfl⟩
    have hq : (addr + 2 ^ e - 1) / 2 ^ e ≤ q := by
      rw [Nat.div_le_iff_le_mul_add_pred hpos]
      omega
    constructor
    · rw [Nat.mul_comm]
      exact Nat.mul_le_mul_left _ hq
    · exact (Nat.dvd_sub' (Nat.dvd_mul_right _ _) (Nat.dvd_mul_left _ _))

theorem candidate_no_wrap (align : Nat) :
    ∀ (j start : Nat), start + j * align < U64 → candidate align start j = start + j * align := by
  intro j
  induction j with
  | zero => intro start _; simp [candidate]
  | succ j ih =>
    intro start h
    have h1 : add64 start align = start + align := by
      apply Nat.mod_eq_of_lt
      have : (j + 1) * align = j * align + align := Nat.succ_mul j align
      omega
    have h2 : (j + 1) * align = j * align + align := Nat.succ_mul j align
    rw [candidate, h1, ih (start + align) (by omega)]
    omega

theorem candidate_dvd (e : Nat) (he : e < 64) :
    ∀ (j start : Nat), 2 ^ e ∣ start → 2 ^ e ∣ candidate (2 ^ e) start j := by
  intro j
  induction j with
  | zero => intro start h; simpa [candidate] using h
  | succ j ih =>
    intro start h
    rw [candidate]
    apply ih
    rw [add64, Nat.dvd_mod_iff (pow2_dvd_U64 he)]
    exact Nat.dvd_add h (Nat.dvd_refl _)

/-- When candidate `j0` is accepted and no candidate up to it wraps or
passes `max_addr`, the search returns the first accepted candidate. -/
theorem align_loop_first_accepted (binfo : grub_bhyve_info) (mem : Nat → Bool)
    (max_addr size align start j0 : Nat) (st : alloc_result)
    (hle : start + j0 * align ≤ max_addr) (hmax : max_addr < U64)
    (hacc : accepted binfo mem st.rel size align start j0) :
    ∃ j, j ≤ j0 ∧ accepted binfo mem st.rel size align start j ∧
      (∀ i, i < j → ¬ accepted binfo mem st.rel size align start i) ∧
      ∀ fuel, j < fuel → align_loop binfo mem max_addr size align fuel 0 start st =
        some ⟨GRUB_ERR_NONE, some ⟨start + j * align, size⟩,
          ⟨insert_chunk ⟨start + j * align, size⟩ st.rel.head⟩⟩ := by
  classical
  have hex : ∃ j, accepted binfo mem st.rel size align start j := ⟨j0, hacc⟩
  have hj : Nat.find hex ≤ j0 := Nat.find_min' hex hacc
  have hcand : ∀ i, i ≤ j0 → candidate align start i = start + i * align ∧
      start + i * align ≤ max_addr := by
    intro i hi
    have : i * align ≤ j0 * align := Nat.mul_le_mul_right _ hi
    exact ⟨candidate_no_wrap align i start (by omega), by omega⟩
  have hprobe : ∀ i, i ≤ j0 → probe binfo mem st.rel size align start 0 i =
      grub_relocator_alloc_chunk_addr binfo (mem i) st.rel (start + i * align) size := by
    intro i hi
    simp only [probe, Nat.zero_add, (hcand i hi).1]
  refine ⟨Nat.find hex, hj, Nat.find_spec hex, fun i hi => Nat.find_min hex hi, ?_⟩
  intro fuel hfuel
  have hsucc : (probe binfo mem st.rel size align start 0 (Nat.find hex)).err = GRUB_ERR_NONE := by
    rw [hprobe _ hj]
    exact Nat.find_spec hex
  rw [align_loop_success_of binfo mem max_addr size align (Nat.find hex) fuel 0 start st hfuel
    ?_ ?_ hsucc]
  · rw [hprobe _ hj, alloc_addr_ok_result]
    exact Nat.find_spec hex
  · intro i hi
    refine ⟨by rw [(hcand i (by omega)).1]; exact (hcand i (by omega)).2, ?_⟩
    rw [hprobe i (by omega)]
    exact Nat.find_min hex hi
  · rw [(hcand _ hj).1]
    exact (hcand _ hj).2

/-! ## The claims -/

/-- C1, as amended.  No-overlap invariant: start from the empty relocator
and run any sequence of `grub_relocator_alloc_chunk_addr` /
`grub_relocator_alloc_chunk_align` calls, each with `size > 0` and with a
request that cannot pass the top of the address space
(`target + size <= 2 ^ 64`, for the search `max_addr + size <= 2 ^ 64`).
Then any two distinct chunks of the resulting list cover ranges
`[target, target + size)` without a common address. -/
theorem chunks_never_overlap (binfo : grub_bhyve_info) (fuel : Nat)
    (calls : List alloc_call) (rel' : grub_relocator)
    (hcalls : ∀ c ∈ calls, c.no_wrap)
    (hrun : run_calls binfo fuel calls grub_relocator_new = some rel') :
    rel'.head.Pairwise (fun a b => ¬ shares_address a.target a.size b.target b.size) :=
  (run_calls_rel_inv binfo fuel calls _ rel' rel_inv_new hcalls hrun).1.imp
    (fun h => not_shares_of_chunk_before h)

/-- C1, witness: a fixed placement followed by an aligned search. -/
theorem chunks_never_overlap_witness :
    List.Pairwise (fun a b : grub_relocator_chunk =>
        ¬ shares_address a.target a.size b.target b.size)
      [⟨0x2000, 0x1000⟩, ⟨0x100000, 4096⟩] :=
  chunks_never_overlap binfo_256M 4
    [.chunk_addr true 0x2000 0x1000,
     .chunk_align (fun _ => true) (other 0) none 0 (16 * 1024 * 1024) 4096 8]
    ⟨[⟨0x2000, 0x1000⟩, ⟨0x100000, 4096⟩]⟩
    (by
      intro c hc
      simp only [List.mem_cons, List.mem_singleton, List.not_mem_nil, or_false] at hc
      rcases hc with rfl | rfl <;>
        simp [alloc_call.no_wrap, alloc_call.size, alloc_call.top, U64])
    (by decide)

/-- C1, counterexample.  Two calls with `size > 0` on the empty relocator:
the first request `(0x1000, 2 ^ 64 - 0x800)` wraps (its computed last byte is
`0x7FF`, inside the first segment) and is placed; the second, `(0x2000, 0x100)`,
passes the disjointness test because `otarget + osize` wrapped to `0x800`.
Both chunks are held and both contain the address `0x2000`. -/
theorem chunks_overlap_after_wraparound :
    0 < U64 - 0x800 ∧ U64 - 0x800 < U64 ∧
    run_calls binfo_256M 1
      [.chunk_addr true 0x1000 (U64 - 0x800), .chunk_addr true 0x2000 0x100]
      grub_relocator_new = some ⟨[⟨0x1000, U64 - 0x800⟩, ⟨0x2000, 0x100⟩]⟩ ∧
    shares_address 0x1000 (U64 - 0x800) 0x2000 0x100 :=
  ⟨by decide, by decide, by decide,
    ⟨0x2000, ⟨by decide, by decide⟩, by decide, by decide⟩⟩

/-- C2, as amended.  Containment: for every segment table and every
`size > 0`, if `grub_relocator_alloc_chunk_addr` succeeds on a request with
`target + size <= 2 ^ 64`, directly (first part) or as the successful probe
of a `grub_relocator_alloc_chunk_align` call with `max_addr + size <= 2 ^ 64`
that probes at least one candidate (second part), then some declared segment
contains every address of the placed range `[target, target + size)`; that
segment is available when every declared segment is, and it is the only
such segment when the declared segments are pairwise without a common
address (`in_declared_segment`: the code reads no `type` field and stops at
the first fitting segment). -/
theorem alloc_chunk_within_segment (binfo : grub_bhyve_info) (rel : grub_relocator)
    (size : Nat) (hsize : 0 < size) :
    (∀ (zalloc_ok : Bool) (target : Nat), target + size ≤ U64 →
      (grub_relocator_alloc_chunk_addr binfo zalloc_ok rel target size).err = GRUB_ERR_NONE →
      in_declared_segment binfo target size) ∧
    (∀ (mem : Nat → Bool) (err0 : grub_err_t) (out0 : Option grub_relocator_chunk)
        (fuel min_addr max_addr align : Nat) (r : alloc_result),
      max_addr + size ≤ U64 →
      ALIGN_UP (search_floor min_addr max_addr size align) align ≤ max_addr →
      grub_relocator_alloc_chunk_align binfo mem err0 out0 fuel rel
        min_addr max_addr size align = some r →
      r.err = GRUB_ERR_NONE →
      ∃ c, r.out = some c ∧ c.size = size ∧ c ∈ r.rel.head ∧
        in_declared_segment binfo c.target size) := by
  refine ⟨fun zalloc_ok target hreq hok =>
    alloc_addr_in_segment binfo zalloc_ok rel target size hsize hreq hok, ?_⟩
  intro mem err0 out0 fuel min_addr max_addr align r hmax hprobed hrun hok
  obtain ⟨z, a, ha, hr, hok'⟩ := alloc_chunk_align_ok_is_probe binfo mem err0 out0 fuel rel
    min_addr max_addr size align r hprobed hrun hok
  have hres := alloc_addr_ok_result binfo z rel a size (hr ▸ hok')
  refine ⟨⟨a, size⟩, by rw [hr, hres], rfl, ?_,
    alloc_addr_in_segment binfo z rel a size hsize (by omega) (hr ▸ hok')⟩
  rw [hr, hres]
  show (⟨a, size⟩ : grub_relocator_chunk) ∈ insert_chunk ⟨a, size⟩ rel.head
  rw [insert_chunk_eq, mem_insert_after_prev]
  exact Or.inl rfl

/-- C2, witness: a page placed at `0x1000` in the table that
`grub_emu_bhyve_init` declares for a 256 MiB guest, whose segments are
available and pairwise apart: the page lies in exactly one declared segment
and that segment is available. -/
theorem alloc_chunk_within_segment_witness :
    ∃ s ∈ binfo_256M.segs, range_in_seg 0x1000 0x1000 s ∧
      s.type = GRUB_MEMORY_AVAILABLE ∧
      ∀ s' ∈ binfo_256M.segs, range_in_seg 0x1000 0x1000 s' → s' = s := by
  obtain ⟨s, hs, hin, htype, huniq⟩ :=
    (alloc_chunk_within_segment binfo_256M grub_relocator_new 0x1000 (by decide)).1
      true 0x1000 (by decide) (by decide)
  refine ⟨s, hs, hin, htype (by decide), huniq ?_⟩
  show List.Pairwise segs_apart
    [⟨0, 640 * 1024 - 1, GRUB_MEMORY_AVAILABLE⟩,
     ⟨1024 * 1024, 256 * 1024 * 1024, GRUB_MEMORY_AVAILABLE⟩]
  refine List.Pairwise.cons ?_ (List.Pairwise.cons (by simp) List.Pairwise.nil)
  intro b hb
  rw [List.mem_singleton] at hb
  subst hb
  intro a ha
  simp only at ha
  omega

/-- C2, counterexample, in three parts.  (1) The wrapping request
`(0x1000, 2 ^ 64 - 0x800)` is placed although the address `0xA0000` of its
range lies in no declared segment.  (2) With a table whose only segment is
reserved, the request `(0, 0x100)` is placed in that segment.  (3) With a
table of two overlapping segments, the request `(0, 0x100)` is placed and
lies inside both. -/
theorem alloc_chunk_addr_containment_fails :
    ((grub_relocator_alloc_chunk_addr binfo_256M true grub_relocator_new
        0x1000 (U64 - 0x800)).err = GRUB_ERR_NONE ∧
      (0x1000 ≤ 0xA0000 ∧ 0xA0000 < 0x1000 + (U64 - 0x800)) ∧
      ∀ s ∈ binfo_256M.segs, ¬ (s.start ≤ 0xA0000 ∧ 0xA0000 ≤ s.end_)) ∧
    ((grub_relocator_alloc_chunk_addr ⟨40, [⟨0, 0xFFF, GRUB_MEMORY_RESERVED⟩]⟩ true
        grub_relocator_new 0 0x100).err = GRUB_ERR_NONE ∧
      ∀ s ∈ [(⟨0, 0xFFF, GRUB_MEMORY_RESERVED⟩ : grub_mmap_region)],
        s.type ≠ GRUB_MEMORY_AVAILABLE) ∧
    ((grub_relocator_alloc_chunk_addr
        ⟨40, [⟨0, 0xFFF, GRUB_MEMORY_AVAILABLE⟩, ⟨0, 0xFFFF, GRUB_MEMORY_AVAILABLE⟩]⟩ true
        grub_relocator_new 0 0x100).err = GRUB_ERR_NONE ∧
      range_in_seg 0 0x100 ⟨0, 0xFFF, GRUB_MEMORY_AVAILABLE⟩ ∧
      range_in_seg 0 0x100 ⟨0, 0xFFFF, GRUB_MEMORY_AVAILABLE⟩) := by
  refine ⟨⟨by decide, by decide, by decide⟩, ⟨by decide, by decide⟩, by decide, ?_, ?_⟩ <;>
  · intro a h1 h2
    simp only
    omega

/-- C3, as amended.  Ordering invariant: after every sequence of allocation
calls with `size > 0` whose requests cannot pass `2 ^ 64`, run on the empty
relocator, the chunk list is strictly ascending in `target` from head to
tail; and a further successful `grub_relocator_alloc_chunk_addr` of such a
request splits the list in two, puts the new chunk between the two parts,
changes neither part, and the list is strictly ascending again. -/
theorem chunks_strictly_ascending (binfo : grub_bhyve_info) (fuel : Nat)
    (calls : List alloc_call) (rel' : grub_relocator)
    (hcalls : ∀ c ∈ calls, c.no_wrap)
    (hrun : run_calls binfo fuel calls grub_relocator_new = some rel') :
    rel'.head.Pairwise (fun a b => a.target < b.target) ∧
    ∀ (zalloc_ok : Bool) (target size : Nat), 0 < size → target + size ≤ U64 →
      (grub_relocator_alloc_chunk_addr binfo zalloc_ok rel' target size).err = GRUB_ERR_NONE →
      ∃ l1 l2, rel'.head = l1 ++ l2 ∧
        (grub_relocator_alloc_chunk_addr binfo zalloc_ok rel' target size).rel.head
          = l1 ++ ⟨target, size⟩ :: l2 ∧
        (l1 ++ ⟨target, size⟩ :: l2).Pairwise (fun a b => a.target < b.target) := by
  have hinv := run_calls_rel_inv binfo fuel calls _ rel' rel_inv_new hcalls hrun
  have hasc : ∀ r : grub_relocator, rel_inv r →
      r.head.Pairwise (fun a b => a.target < b.target) := by
    intro r hr
    refine hr.1.imp_of_mem ?_
    intro a b ha _ hab
    have := (hr.2 a ha).1
    simp only [chunk_before] at hab
    omega
  refine ⟨hasc rel' hinv, ?_⟩
  intro zalloc_ok target size hsize hreq hok
  have hinv' := alloc_addr_rel_inv binfo zalloc_ok rel' target size hinv hsize hreq
  obtain ⟨l1, l2, h1, h2, -, -⟩ := insert_after_prev_split ⟨target, size⟩ rel'.head
  have hres : (grub_relocator_alloc_chunk_addr binfo zalloc_ok rel' target size).rel.head
      = l1 ++ ⟨target, size⟩ :: l2 := by
    rw [alloc_addr_ok_result binfo zalloc_ok rel' target size hok]
    show insert_chunk ⟨target, size⟩ rel'.head = _
    rw [insert_chunk_eq, h2]
  exact ⟨l1, l2, h1, hres, hres ▸ hasc _ hinv'⟩

/-- C3, witness: three placements made out of address order. -/
theorem chunks_strictly_ascending_witness :
    List.Pairwise (fun a b : grub_relocator_chunk => a.target < b.target)
      [⟨0x1000, 0x1000⟩, ⟨0x3000, 0x1000⟩, ⟨0x5000, 0x1000⟩] :=
  (chunks_strictly_ascending binfo_256M 1
    [.chunk_addr true 0x3000 0x1000, .chunk_addr true 0x5000 0x1000,
     .chunk_addr true 0x1000 0x1000]
    ⟨[⟨0x1000, 0x1000⟩, ⟨0x3000, 0x1000⟩, ⟨0x5000, 0x1000⟩]⟩
    (by
      intro c hc
      simp only [List.mem_cons, List.mem_singleton, List.not_mem_nil, or_false] at hc
      rcases hc with rfl | rfl | rfl <;>
        simp [alloc_call.no_wrap, alloc_call.size, alloc_call.top, U64])
    (by decide)).1

/-- C3, counterexample.  Two calls with `size > 0` on the empty relocator:
the wrapping request `(0x1000, 2 ^ 64 - 0x800)` is placed, and then the
request `(0x1000, 1)` passes the disjointness test (`otarget + osize`
wrapped to `0x800`) and is placed as well: the list holds two chunks with
the target `0x1000` and is not strictly ascending. -/
theorem chunks_share_target_after_wraparound :
    0 < U64 - 0x800 ∧ U64 - 0x800 < U64 ∧
    run_calls binfo_256M 1
      [.chunk_addr true 0x1000 (U64 - 0x800), .chunk_addr true 0x1000 1]
      grub_relocator_new = some ⟨[⟨0x1000, U64 - 0x800⟩, ⟨0x1000, 1⟩]⟩ ∧
    ¬ List.Pairwise (fun a b : grub_relocator_chunk => a.target < b.target)
      [⟨0x1000, U64 - 0x800⟩, ⟨0x1000, 1⟩] := by
  refine ⟨by decide, by decide, by decide, ?_⟩
  simp

/-- C4, as amended.  Overlap rejection: when the request range
`[target, target + size)` ends below `2 ^ 64` and shares an address with a
held chunk whose range ends below `2 ^ 64` (such a request has `size > 0`),
`grub_relocator_alloc_chunk_addr` returns `GRUB_ERR_BAD_ARGUMENT`, stores
`NULL` through `out` and leaves the chunk list as it was, for every segment
table and every outcome of `grub_zalloc` (the overlap test comes first). -/
theorem alloc_chunk_addr_overlap_rejected (binfo : grub_bhyve_info) (zalloc_ok : Bool)
    (rel : grub_relocator) (target size : Nat) (c : grub_relocator_chunk)
    (hc : c ∈ rel.head) (hreq : target + size < U64) (hch : c.target + c.size < U64)
    (hshare : shares_address target size c.target c.size) :
    grub_relocator_alloc_chunk_addr binfo zalloc_ok rel target size =
      ⟨GRUB_ERR_BAD_ARGUMENT, none, rel⟩ :=
  alloc_addr_overlap binfo zalloc_ok rel target size
    ((overlaps_existing_iff rel target size).2
      ⟨c, hc, disjoint_false_of_shares hshare hreq hch⟩)

/-- C4, witness: held chunk `(0x2000, 0x1000)`, request `(0x2800, 0x100)`. -/
theorem alloc_chunk_addr_overlap_rejected_witness :
    grub_relocator_alloc_chunk_addr binfo_256M true ⟨[⟨0x2000, 0x1000⟩]⟩ 0x2800 0x100 =
      ⟨GRUB_ERR_BAD_ARGUMENT, none, ⟨[⟨0x2000, 0x1000⟩]⟩⟩ :=
  alloc_chunk_addr_overlap_rejected binfo_256M true ⟨[⟨0x2000, 0x1000⟩]⟩ 0x2800 0x100
    ⟨0x2000, 0x1000⟩ (by simp) (by decide) (by decide)
    ⟨0x2800, ⟨by decide, by decide⟩, by decide, by decide⟩

/-- C4, counterexample, in two parts.  (1) The request
`(0x2800, 2 ^ 64 - 0x2800)` covers `[0x2800, 2 ^ 64)` and so shares the
address `0x2800` with the held chunk `(0x2000, 0x1000)`; `point + size`
wraps to 0, the disjointness test passes and the call fails with
`GRUB_ERR_OUT_OF_RANGE`, not with the overlap error.  (2) When the held
chunk is the wrapping `(0x1000, 2 ^ 64 - 0x800)`, the request
`(0x2000, 0x100)` shares the address `0x2000` with it and succeeds. -/
theorem alloc_chunk_addr_overlap_missed_on_wraparound :
    (0 < U64 - 0x2800 ∧ U64 - 0x2800 < U64 ∧
      shares_address 0x2800 (U64 - 0x2800) 0x2000 0x1000 ∧
      grub_relocator_alloc_chunk_addr binfo_256M true ⟨[⟨0x2000, 0x1000⟩]⟩
        0x2800 (U64 - 0x2800) = ⟨GRUB_ERR_OUT_OF_RANGE, none, ⟨[⟨0x2000, 0x1000⟩]⟩⟩) ∧
    (shares_address 0x2000 0x100 0x1000 (U64 - 0x800) ∧
      (grub_relocator_alloc_chunk_addr binfo_256M true ⟨[⟨0x1000, U64 - 0x800⟩]⟩
        0x2000 0x100).err = GRUB_ERR_NONE) :=
  ⟨⟨by decide, by decide, ⟨0x2800, ⟨by decide, by decide⟩, by decide, by decide⟩, by decide⟩,
    ⟨0x2000, ⟨by decide, by decide⟩, by decide, by decide⟩, by decide⟩

/-- C5, the code at the failing input.  With the chunk `(0x100000, 0x1000)`
held, the request `(0xFF000, 0x1000)` ends exactly where the chunk begins:
it shares no address with it, and no declared segment contains its first
byte (it lies in the hole between 640 KiB and 1 MiB); the call reports
`GRUB_ERR_BAD_ARGUMENT` instead of `GRUB_ERR_OUT_OF_RANGE`. -/
theorem alloc_chunk_addr_adjacent_out_of_range_reported_as_overlap :
    ¬ shares_address 0xFF000 0x1000 0x100000 0x1000 ∧
    (∀ s ∈ binfo_256M.segs, ¬ (s.start ≤ 0xFF000 ∧ 0xFF000 ≤ s.end_)) ∧
    grub_relocator_alloc_chunk_addr binfo_256M true ⟨[⟨0x100000, 0x1000⟩]⟩ 0xFF000 0x1000 =
      ⟨GRUB_ERR_BAD_ARGUMENT, none, ⟨[⟨0x100000, 0x1000⟩]⟩⟩ := by
  refine ⟨?_, by decide, by decide⟩
  rintro ⟨a, ⟨h1, h2⟩, h3, h4⟩
  omega

/-- C6, the code at the failing input.  With the chunk `(0x2000, 0x1000)`
held, the request `(0x1000, 0x1000)` ends exactly where that chunk begins:
the two half-open ranges share no address, the first declared segment
contains `[0x1000, 0x1FFF]` and `grub_zalloc` would succeed, yet the call
fails with `GRUB_ERR_BAD_ARGUMENT` and places nothing. -/
theorem alloc_chunk_addr_rejects_request_ending_at_chunk_start :
    ¬ shares_address 0x1000 0x1000 0x2000 0x1000 ∧
    (∃ s ∈ binfo_256M.segs, range_in_seg 0x1000 0x1000 s) ∧
    grub_relocator_alloc_chunk_addr binfo_256M true ⟨[⟨0x2000, 0x1000⟩]⟩ 0x1000 0x1000 =
      ⟨GRUB_ERR_BAD_ARGUMENT, none, ⟨[⟨0x2000, 0x1000⟩]⟩⟩ := by
  refine ⟨?_, ⟨⟨0, 640 * 1024 - 1, GRUB_MEMORY_AVAILABLE⟩, by decide, ?_⟩, by decide⟩
  · rintro ⟨a, ⟨h1, h2⟩, h3, h4⟩
    omega
  · intro a h1 h2
    simp only
    omega

/-- C7, as amended.  Alignment property: for `align` a power of two
(`2 ^ e`, `e < 64`) and a call that probes at least one candidate
(`ALIGN_UP` of the search floor is `<= max_addr`), if
`grub_relocator_alloc_chunk_align` returns `GRUB_ERR_NONE`, the target of
the returned chunk is a multiple of `align`. -/
theorem alloc_chunk_align_target_aligned (binfo : grub_bhyve_info) (mem : Nat → Bool)
    (err0 : grub_err_t) (out0 : Option grub_relocator_chunk) (fuel : Nat)
    (rel : grub_relocator) (min_addr max_addr size e : Nat) (r : alloc_result)
    (he : e < 64)
    (hprobed : ALIGN_UP (search_floor min_addr max_addr size (2 ^ e)) (2 ^ e) ≤ max_addr)
    (hrun : grub_relocator_alloc_chunk_align binfo mem err0 out0 fuel rel
      min_addr max_addr size (2 ^ e) = some r)
    (hok : r.err = GRUB_ERR_NONE) :
    ∃ c, r.out = some c ∧ 2 ^ e ∣ get_physical_target_address c := by
  obtain ⟨j, -, hfail, hres⟩ := align_loop_spec binfo mem max_addr size (2 ^ e) fuel 0 _ _ r hrun
  have hdvd := candidate_dvd e he j _ (ALIGN_UP_dvd (search_floor min_addr max_addr size (2 ^ e)) e he)
  rcases hres with ⟨-, h2, h3⟩ | ⟨h1, -, h3⟩
  · rw [h2] at h3
    simp only [probe] at h2 h3
    rw [alloc_addr_ok_result _ _ _ _ _ h3] at h2
    refine ⟨⟨_, size⟩, by rw [h2], ?_⟩
    simpa [get_physical_target_address] using hdvd
  · exfalso
    rcases h3 with ⟨h0, -⟩ | ⟨hpos, h3⟩
    · subst h0
      simp only [candidate] at h1
      omega
    · have := (hfail (j - 1) (by omega)).2
      rw [← h3] at this
      exact this hok

/-- C7, witness: the search of the low-memory scenario, 8-byte aligned. -/
theorem alloc_chunk_align_target_aligned_witness :
    ∃ c, (some (⟨0x100000, 4096⟩ : grub_relocator_chunk)) = some c ∧
      2 ^ 3 ∣ get_physical_target_address c :=
  alloc_chunk_align_target_aligned binfo_256M (fun _ => true) (other 0) none 4
    grub_relocator_new 0 (16 * 1024 * 1024) 4096 3
    ⟨GRUB_ERR_NONE, some ⟨0x100000, 4096⟩, ⟨[⟨0x100000, 4096⟩]⟩⟩
    (by decide) (by decide) (by decide) rfl

/-- C7, counterexample, in two parts.  (1) With the chunk `(0, 1)` held,
the search `(min_addr = 0, max_addr = 2 ^ 63 + 1, size = 1,
align = 2 ^ 63 + 1)` starts at `ALIGN_UP(0, align) = 0` and probes 0
(overlap), then `2 ^ 63 + 1` (out of range), then `addr += align` wraps to 2,
which is accepted: the call succeeds with target 2, which is not a multiple
of `align`.  (2) On the empty relocator the search
`(min_addr = 1 MiB, max_addr = 16 MiB, size = 4096, align = 3)` starts at
`ALIGN_UP(0x100000, 3) = 0x100002 & ~2 = 0x100000` and succeeds there;
`0x100000` is not a multiple of 3. -/
theorem alloc_chunk_align_target_not_aligned :
    (grub_relocator_alloc_chunk_align binfo_256M (fun _ => true) (other 0) none 3
        ⟨[⟨0, 1⟩]⟩ 0 (2 ^ 63 + 1) 1 (2 ^ 63 + 1)
        = some ⟨GRUB_ERR_NONE, some ⟨2, 1⟩, ⟨[⟨0, 1⟩, ⟨2, 1⟩]⟩⟩ ∧
      1 ≤ 2 ^ 63 + 1 ∧ 2 ^ 63 + 1 < U64 ∧
      ¬ (2 ^ 63 + 1 ∣ get_physical_target_address ⟨2, 1⟩)) ∧
    (grub_relocator_alloc_chunk_align binfo_256M (fun _ => true) (other 0) none 1
        grub_relocator_new 0x100000 (16 * 1024 * 1024) 4096 3
        = some ⟨GRUB_ERR_NONE, some ⟨0x100000, 4096⟩, ⟨[⟨0x100000, 4096⟩]⟩⟩ ∧
      ¬ (3 ∣ get_physical_target_address ⟨0x100000, 4096⟩)) := by
  refine ⟨⟨by decide, by decide, by decide, ?_⟩, by decide, by decide⟩
  intro h
  have := Nat.le_of_dvd (by decide) h
  simp [get_physical_target_address] at this

/-- C8, as amended.  Low-memory floor: for `align` a power of two and a
request with `min_addr < 1 MiB` that passes the guard of the code,
`align + size + ONE_MB < max_addr` (computed in 64 bits), if some address
`a` with `1 MiB <= a <= max_addr`, a multiple of `align`, is one whose probe
is accepted by `grub_relocator_alloc_chunk_addr`, then the call returns
success once the fuel covers the probes up to `a`, and the returned target
is at least 1 MiB and at most `a`. -/
theorem alloc_chunk_align_low_memory_floor (binfo : grub_bhyve_info) (mem : Nat → Bool)
    (err0 : grub_err_t) (out0 : Option grub_relocator_chunk)
    (rel : grub_relocator) (min_addr max_addr size e a : Nat)
    (he : e < 64) (hmin : min_addr < ONE_MB) (hmax : max_addr < U64)
    (hguard : add64 (add64 (2 ^ e) size) ONE_MB < max_addr)
    (ha1 : ONE_MB ≤ a) (ha2 : a ≤ max_addr) (ha3 : 2 ^ e ∣ a)
    (hacc : (grub_relocator_alloc_chunk_addr binfo
      (mem ((a - ALIGN_UP ONE_MB (2 ^ e)) / 2 ^ e)) rel a size).err = GRUB_ERR_NONE) :
    ∃ r c, (∀ fuel, (a - ALIGN_UP ONE_MB (2 ^ e)) / 2 ^ e < fuel →
        grub_relocator_alloc_chunk_align binfo mem err0 out0 fuel rel
          min_addr max_addr size (2 ^ e) = some r) ∧
      r.err = GRUB_ERR_NONE ∧ r.out = some c ∧
      ONE_MB ≤ get_physical_target_address c ∧ get_physical_target_address c ≤ a := by
  have hpos : 0 < 2 ^ e := Nat.two_pow_pos e
  have hfloor : search_floor min_addr max_addr size (2 ^ e) = ONE_MB := by
    simp [search_floor, hmin, hguard]
  have hno : ONE_MB + 2 ^ e ≤ U64 := by
    have : 2 ^ e ≤ 2 ^ 63 := Nat.pow_le_pow_right (by decide) (by omega)
    simp only [ONE_MB, U64]
    omega
  obtain ⟨hs1, hs2⟩ := ALIGN_UP_least ONE_MB e he hno
  obtain ⟨hs3, q, hq⟩ := hs2 a ha1 ha3
  have hq' : (a - ALIGN_UP ONE_MB (2 ^ e)) / 2 ^ e = q := by
    rw [hq, Nat.mul_div_cancel_left _ hpos]
  have hstart : ALIGN_UP ONE_MB (2 ^ e) + q * 2 ^ e = a := by
    rw [Nat.mul_comm, ← hq]
    omega
  have hacc' : accepted binfo mem rel size (2 ^ e) (ALIGN_UP ONE_MB (2 ^ e)) q := by
    simp only [accepted, hstart]
    rw [← hq']
    exact hacc
  obtain ⟨j, hj, -, -, hloop⟩ := align_loop_first_accepted binfo mem max_addr size (2 ^ e)
    (ALIGN_UP ONE_MB (2 ^ e)) q ⟨err0, out0, rel⟩ (by omega) hmax hacc'
  refine ⟨⟨GRUB_ERR_NONE, some ⟨ALIGN_UP ONE_MB (2 ^ e) + j * 2 ^ e, size⟩,
      ⟨insert_chunk ⟨ALIGN_UP ONE_MB (2 ^ e) + j * 2 ^ e, size⟩ rel.head⟩⟩,
    ⟨ALIGN_UP ONE_MB (2 ^ e) + j * 2 ^ e, size⟩, ?_, rfl, rfl, ?_, ?_⟩
  · intro fuel hfuel
    rw [grub_relocator_alloc_chunk_align, hfloor]
    exact hloop fuel (by omega)
  · simp only [get_physical_target_address]
    omega
  · simp only [get_physical_target_address]
    have : j * 2 ^ e ≤ q * 2 ^ e := Nat.mul_le_mul_right _ hj
    omega

/-- C8, witness: segments `[0, 640 KiB)` and `[1 MiB, 16 MiB)`, empty
relocator, request `(min = 0, max = 16 MiB, size = 4096, align = 8)`; the
address `a = 1 MiB` is feasible. -/
theorem alloc_chunk_align_low_memory_floor_witness :
    ∃ r c, (∀ fuel, (0x100000 - ALIGN_UP ONE_MB (2 ^ 3)) / 2 ^ 3 < fuel →
        grub_relocator_alloc_chunk_align binfo_16M (fun _ => true) (other 0) none fuel
          grub_relocator_new 0 (16 * 1024 * 1024) 4096 (2 ^ 3) = some r) ∧
      r.err = GRUB_ERR_NONE ∧ r.out = some c ∧
      ONE_MB ≤ get_physical_target_address c ∧ get_physical_target_address c ≤ 0x100000 :=
  alloc_chunk_align_low_memory_floor binfo_16M (fun _ => true) (other 0) none
    grub_relocator_new 0 (16 * 1024 * 1024) 4096 3 0x100000
    (by decide) (by decide) (by decide) (by decide) (by decide) (by decide) (by decide)
    (by decide)

/-- C8, counterexample, in two parts.  (1) Segments `[0, 640 KiB)` and
`[1 MiB, 16 MiB)`, empty relocator, request
`(min = 0, max = 1 MiB + 4096, size = 4096, align = 8)`.  The address 1 MiB
is at most `max_addr`, a multiple of 8 and a place where
`grub_relocator_alloc_chunk_addr` succeeds, but the guard
`align + size + ONE_MB < max_addr` is false, the floor stays at 0 and the
chunk is placed at address 0.  (2) Segments `[0, 640 KiB)` and
`[1 MiB, 1 MiB + 3]`, the chunk `(1 MiB, 1)` held, request
`(min = 0, max = 1 MiB + 16, size = 2, align = 3)`: the guard holds and the
address `0x100002`, a multiple of 3, is feasible, but the candidates are
`ALIGN_UP(0x100000, 3) + 3 k = 0x100000 + 3 k`, none is accepted and the
call fails. -/
theorem alloc_chunk_align_low_memory_floor_fails :
    ((0x100000 ≤ 0x100000 + 4096 ∧ 8 ∣ 0x100000 ∧
        (grub_relocator_alloc_chunk_addr binfo_16M true grub_relocator_new
          0x100000 4096).err = GRUB_ERR_NONE) ∧
      grub_relocator_alloc_chunk_align binfo_16M (fun _ => true) (other 0) none 1
        grub_relocator_new 0 (0x100000 + 4096) 4096 8
        = some ⟨GRUB_ERR_NONE, some ⟨0, 4096⟩, ⟨[⟨0, 4096⟩]⟩⟩) ∧
    ((0x100002 ≤ 0x100010 ∧ 3 ∣ 0x100002 ∧
        (grub_relocator_alloc_chunk_addr (grub_emu_bhyve_init 0x100003 (3 * GB)).info true
          ⟨[⟨0x100000, 1⟩]⟩ 0x100002 2).err = GRUB_ERR_NONE) ∧
      grub_relocator_alloc_chunk_align (grub_emu_bhyve_init 0x100003 (3 * GB)).info
        (fun _ => true) (other 0) none 7 ⟨[⟨0x100000, 1⟩]⟩ 0 0x100010 2 3
        = some ⟨GRUB_ERR_OUT_OF_RANGE, none, ⟨[⟨0x100000, 1⟩]⟩⟩) := by
  decide

/-- C9, as amended.  First-success search: let `start` be `ALIGN_UP` of the
search floor (1 MiB when the low-memory filter raises it, `min_addr`
otherwise).  For `align >= 1` (a power of two in particular), when at least
one candidate is probed (`start <= max_addr`) and the candidates cannot wrap
(`max_addr + align < 2 ^ 64`), `grub_relocator_alloc_chunk_align` returns
with enough fuel; it returns `GRUB_ERR_NONE` if and only if some candidate
`start + k * align <= max_addr` is accepted by
`grub_relocator_alloc_chunk_addr`; the returned chunk is then the smallest
accepted candidate and it is the one chunk added to the list; on failure the
relocator is unchanged. -/
theorem alloc_chunk_align_first_success (binfo : grub_bhyve_info) (mem : Nat → Bool)
    (err0 : grub_err_t) (out0 : Option grub_relocator_chunk)
    (rel : grub_relocator) (min_addr max_addr size align start : Nat)
    (hstart : start = ALIGN_UP (search_floor min_addr max_addr size align) align)
    (halign : 0 < align) (hno : max_addr + align < U64) (hprobed : start ≤ max_addr) :
    ∃ r, (∀ fuel, (max_addr - start) / align + 1 < fuel →
        grub_relocator_alloc_chunk_align binfo mem err0 out0 fuel rel
          min_addr max_addr size align = some r) ∧
      (r.err = GRUB_ERR_NONE ↔
        ∃ k, start + k * align ≤ max_addr ∧ accepted binfo mem rel size align start k) ∧
      (r.err = GRUB_ERR_NONE →
        ∃ k, start + k * align ≤ max_addr ∧ accepted binfo mem rel size align start k ∧
          (∀ i, i < k → ¬ accepted binfo mem rel size align start i) ∧
          r.out = some ⟨start + k * align, size⟩ ∧
          ∃ l1 l2, rel.head = l1 ++ l2 ∧
            r.rel.head = l1 ++ ⟨start + k * align, size⟩ :: l2) ∧
      (r.err ≠ GRUB_ERR_NONE → r.rel = rel) := by
  have hmax : max_addr < U64 := by omega
  have hK : ∀ k, start + k * align ≤ max_addr ↔ k < (max_addr - start) / align + 1 := by
    intro k
    rw [Nat.lt_succ_iff, Nat.le_div_iff_mul_le halign]
    omega
  by_cases hex : ∃ k, start + k * align ≤ max_addr ∧ accepted binfo mem rel size align start k
  · obtain ⟨k, hk1, hk2⟩ := hex
    obtain ⟨j, hj, hacc, hmin, hloop⟩ := align_loop_first_accepted binfo mem max_addr size
      align start k ⟨err0, out0, rel⟩ hk1 hmax hk2
    have hjle : start + j * align ≤ max_addr := by
      have : j * align ≤ k * align := Nat.mul_le_mul_right _ hj
      omega
    refine ⟨⟨GRUB_ERR_NONE, some ⟨start + j * align, size⟩,
      ⟨insert_chunk ⟨start + j * align, size⟩ rel.head⟩⟩, ?_, ?_, ?_, ?_⟩
    · intro fuel hfuel
      rw [grub_relocator_alloc_chunk_align, ← hstart]
      exact hloop fuel (by have := (hK j).1 hjle; omega)
    · exact ⟨fun _ => ⟨j, hjle, hacc⟩, fun _ => rfl⟩
    · intro _
      obtain ⟨l1, l2, h1, h2, -, -⟩ := insert_after_prev_split ⟨start + j * align, size⟩ rel.head
      exact ⟨j, hjle, hacc, hmin, rfl, l1, l2, h1, by
        show insert_chunk _ _ = _
        rw [insert_chunk_eq, h2]⟩
    · intro h
      exact absurd rfl h
  · have hnone : ∀ k, k < (max_addr - start) / align + 1 →
        ¬ accepted binfo mem rel size align start k :=
      fun k hk hacc => hex ⟨k, (hK k).2 hk, hacc⟩
    have hlast : ¬ start + ((max_addr - start) / align + 1) * align ≤ max_addr := by
      rw [hK]
      omega
    have hprev : start + ((max_addr - start) / align) * align ≤ max_addr := by
      rw [hK]
      omega
    have hcand : ∀ i, i ≤ (max_addr - start) / align + 1 →
        candidate align start i = start + i * align := by
      intro i hi
      apply candidate_no_wrap
      have h1 : i * align ≤ ((max_addr - start) / align + 1) * align :=
        Nat.mul_le_mul_right _ hi
      have h2 : ((max_addr - start) / align + 1) * align
          = (max_addr - start) / align * align + align := Nat.succ_mul _ _
      omega
    have hfail : ∀ i, i < (max_addr - start) / align + 1 →
        candidate align start i ≤ max_addr ∧
        (probe binfo mem rel size align start 0 i).err ≠ GRUB_ERR_NONE := by
      intro i hi
      rw [hcand i (by omega)]
      refine ⟨(hK i).2 hi, ?_⟩
      have := hnone i hi
      simpa [probe, accepted, hcand i (by omega)] using this
    have hlastfail := (hfail ((max_addr - start) / align) (by omega)).2
    refine ⟨probe binfo mem rel size align start 0 ((max_addr - start) / align), ?_, ?_, ?_, ?_⟩
    · intro fuel hfuel
      rw [grub_relocator_alloc_chunk_align, ← hstart,
        align_loop_exhaust_of binfo mem max_addr size align ((max_addr - start) / align + 1)
          fuel 0 start ⟨err0, out0, rel⟩ hfuel hfail
          (by rw [hcand _ (Nat.le_refl _)]; omega)]
      simp
    · exact ⟨fun h => absurd h hlastfail, fun h => absurd h hex⟩
    · intro h
      exact absurd h hlastfail
    · intro _
      exact (alloc_addr_fail_result _ _ _ _ _ hlastfail).2.1

/-- C9, witness: the window `[0x200, 0xF000]` with the chunk `(0x200, 0xE00)`
held; candidates `0x200`, `0x208`, ... overlap until `0x1000`. -/
theorem alloc_chunk_align_first_success_witness :
    ∃ r, (∀ fuel, (0xF000 - 0x200) / 8 + 1 < fuel →
        grub_relocator_alloc_chunk_align binfo_256M (fun _ => true) (other 0) none fuel
          ⟨[⟨0x200, 0xE00⟩]⟩ 0x200 0xF000 40 8 = some r) ∧
      (r.err = GRUB_ERR_NONE ↔
        ∃ k, 0x200 + k * 8 ≤ 0xF000 ∧
          accepted binfo_256M (fun _ => true) ⟨[⟨0x200, 0xE00⟩]⟩ 40 8 0x200 k) ∧
      (r.err = GRUB_ERR_NONE →
        ∃ k, 0x200 + k * 8 ≤ 0xF000 ∧
          accepted binfo_256M (fun _ => true) ⟨[⟨0x200, 0xE00⟩]⟩ 40 8 0x200 k ∧
          (∀ i, i < k → ¬ accepted binfo_256M (fun _ => true) ⟨[⟨0x200, 0xE00⟩]⟩ 40 8 0x200 i) ∧
          r.out = some ⟨0x200 + k * 8, 40⟩ ∧
          ∃ l1 l2, (⟨[⟨0x200, 0xE00⟩]⟩ : grub_relocator).head = l1 ++ l2 ∧
            r.rel.head = l1 ++ ⟨0x200 + k * 8, 40⟩ :: l2) ∧
      (r.err ≠ GRUB_ERR_NONE → r.rel = ⟨[⟨0x200, 0xE00⟩]⟩) :=
  alloc_chunk_align_first_success binfo_256M (fun _ => true) (other 0) none
    ⟨[⟨0x200, 0xE00⟩]⟩ 0x200 0xF000 40 8 0x200 (by decide) (by decide) (by decide) (by decide)

/-- C9, counterexample.  Empty relocator, request
`(min_addr = 2 ^ 63, max_addr = 2 ^ 64 - 1, size = 1, align = 2 ^ 63)`:
`start = 2 ^ 63` is the only candidate `start + k * align <= max_addr` and it
is not accepted (out of range), yet the call succeeds: `addr += align` wraps
to 0, which is still `<= max_addr`, and the chunk is placed at address 0. -/
theorem alloc_chunk_align_succeeds_after_wraparound :
    ALIGN_UP (search_floor (2 ^ 63) (U64 - 1) 1 (2 ^ 63)) (2 ^ 63) = 2 ^ 63 ∧
    (∀ k, 2 ^ 63 + k * 2 ^ 63 ≤ U64 - 1 →
      ¬ accepted binfo_256M (fun _ => true) grub_relocator_new 1 (2 ^ 63) (2 ^ 63) k) ∧
    grub_relocator_alloc_chunk_align binfo_256M (fun _ => true) (other 0) none 2
      grub_relocator_new (2 ^ 63) (U64 - 1) 1 (2 ^ 63)
      = some ⟨GRUB_ERR_NONE, some ⟨0, 1⟩, ⟨[⟨0, 1⟩]⟩⟩ := by
  refine ⟨by decide, ?_, by decide⟩
  intro k hk
  have hk0 : k = 0 := by
    simp only [U64] at hk
    omega
  subst hk0
  unfold accepted
  decide

/-- C10, the code at the failing inputs.  (1) For the request
`(min_addr = 0x100001, max_addr = 0x100004, size = 4, align = 8)` the first
candidate `ALIGN_UP(0x100001, 8) = 0x100008` already exceeds `max_addr`: no
candidate is probed and the call returns the value `err0` that the
uninitialised local `err` happens to hold, whatever it is, with `*out` and
the relocator untouched.  (2) With the chunk `(0x200, 0x1000)` held, the
search `(0x200, 0x200, 40, 8)` probes the single candidate `0x200`, which
overlaps, and returns the error of that last probe,
`GRUB_ERR_BAD_ARGUMENT`. -/
theorem alloc_chunk_align_returns_last_or_stale_err :
    (∀ (mem : Nat → Bool) (err0 : grub_err_t) (out0 : Option grub_relocator_chunk)
        (fuel : Nat),
      ALIGN_UP (search_floor 0x100001 0x100004 4 8) 8 = 0x100008 ∧
      grub_relocator_alloc_chunk_align binfo_256M mem err0 out0 (fuel + 1)
        grub_relocator_new 0x100001 0x100004 4 8 = some ⟨err0, out0, grub_relocator_new⟩) ∧
    grub_relocator_alloc_chunk_align binfo_256M (fun _ => true) (other 0) none 2
      ⟨[⟨0x200, 0x1000⟩]⟩ 0x200 0x200 40 8
      = some ⟨GRUB_ERR_BAD_ARGUMENT, none, ⟨[⟨0x200, 0x1000⟩]⟩⟩ := by
  refine ⟨?_, by decide⟩
  intro mem err0 out0 fuel
  have h : ALIGN_UP (search_floor 0x100001 0x100004 4 8) 8 = 0x100008 := by decide
  refine ⟨h, ?_⟩
  rw [grub_relocator_alloc_chunk_align, h, align_loop, if_neg (by decide)]

/-! ## Termination of the search -/

theorem align_loop_not_entered (binfo : grub_bhyve_info) (mem : Nat → Bool)
    (max_addr size align start fuel : Nat) (st : alloc_result) (h : max_addr < start) :
    align_loop binfo mem max_addr size align (fuel + 1) 0 start st = some st := by
  rw [align_loop, if_neg (by omega)]

theorem candidates_le_iff {max_addr align start : Nat} (halign : 0 < align)
    (hstart : start ≤ max_addr) (k : Nat) :
    start + k * align ≤ max_addr ↔ k < (max_addr - start) / align + 1 := by
  rw [Nat.lt_succ_iff, Nat.le_div_iff_mul_le halign]
  omega

/-- When the candidates cannot wrap and none of them is accepted, the search
probes all `(max_addr - start) / align + 1` of them and returns the result
of the last probe. -/
theorem align_loop_exhausted (binfo : grub_bhyve_info) (mem : Nat → Bool)
    (max_addr size align start : Nat) (st : alloc_result)
    (halign : 0 < align) (hno : max_addr + align < U64) (hstart : start ≤ max_addr)
    (hnone : ∀ k, start + k * align ≤ max_addr →
      ¬ accepted binfo mem st.rel size align start k) :
    ∀ fuel, (max_addr - start) / align + 1 < fuel →
      align_loop binfo mem max_addr size align fuel 0 start st =
        some (grub_relocator_alloc_chunk_addr binfo (mem ((max_addr - start) / align)) st.rel
          (start + (max_addr - start) / align * align) size) := by
  have hK := fun k => @candidates_le_iff max_addr align start halign hstart k
  have hlast : ¬ start + ((max_addr - start) / align + 1) * align ≤ max_addr := by
    rw [hK]
    omega
  have hprev : start + ((max_addr - start) / align) * align ≤ max_addr := by
    rw [hK]
    omega
  have hcand : ∀ i, i ≤ (max_addr - start) / align + 1 →
      candidate align start i = start + i * align := by
    intro i hi
    apply candidate_no_wrap
    have h1 : i * align ≤ ((max_addr - start) / align + 1) * align :=
      Nat.mul_le_mul_right _ hi
    have h2 : ((max_addr - start) / align + 1) * align
        = (max_addr - start) / align * align + align := Nat.succ_mul _ _
    omega
  have hfail : ∀ i, i < (max_addr - start) / align + 1 →
      candidate align start i ≤ max_addr ∧
      (probe binfo mem st.rel size align start 0 i).err ≠ GRUB_ERR_NONE := by
    intro i hi
    rw [hcand i (by omega)]
    refine ⟨(hK i).2 hi, ?_⟩
    have := hnone i ((hK i).2 hi)
    simpa [probe, accepted, hcand i (by omega)] using this
  intro fuel hfuel
  rw [align_loop_exhaust_of binfo mem max_addr size align ((max_addr - start) / align + 1)
    fuel 0 start st hfuel hfail (by rw [hcand _ (Nat.le_refl _)]; omega)]
  simp [probe, hcand _ (Nat.le_succ _)]

/-- Totality of the search for `align >= 1` when the candidates cannot wrap:
with fuel for all candidates it returns, either the first accepted candidate
or, when none is accepted, the state it was entered with (no candidate) or
the failed last probe. -/
theorem align_loop_total (binfo : grub_bhyve_info) (mem : Nat → Bool)
    (max_addr size align start : Nat) (st : alloc_result)
    (halign : 0 < align) (hno : max_addr + align < U64) :
    ∃ r, (∀ fuel, (max_addr - start) / align + 1 < fuel →
        align_loop binfo mem max_addr size align fuel 0 start st = some r) ∧
      ((∃ j, start + j * align ≤ max_addr ∧ accepted binfo mem st.rel size align start j ∧
          (∀ i, i < j → ¬ accepted binfo mem st.rel size align start i) ∧
          r = ⟨GRUB_ERR_NONE, some ⟨start + j * align, size⟩,
            ⟨insert_chunk ⟨start + j * align, size⟩ st.rel.head⟩⟩) ∨
       ((∀ k, start + k * align ≤ max_addr → ¬ accepted binfo mem st.rel size align start k) ∧
          r.rel = st.rel ∧
          ((max_addr < start ∧ r = st) ∨
           (start ≤ max_addr ∧ r.err ≠ GRUB_ERR_NONE ∧ r.out = none ∧
            r = grub_relocator_alloc_chunk_addr binfo (mem ((max_addr - start) / align)) st.rel
              (start + (max_addr - start) / align * align) size)))) := by
  by_cases hex : ∃ k, start + k * align ≤ max_addr ∧ accepted binfo mem st.rel size align start k
  · obtain ⟨k, hk1, hk2⟩ := hex
    obtain ⟨j, hj, hacc, hmin, hloop⟩ := align_loop_first_accepted binfo mem max_addr size
      align start k st hk1 (by omega) hk2
    have hjle : start + j * align ≤ max_addr := by
      have : j * align ≤ k * align := Nat.mul_le_mul_right _ hj
      omega
    have hstart : start ≤ max_addr := by omega
    refine ⟨_, fun fuel hfuel => hloop fuel ?_, Or.inl ⟨j, hjle, hacc, hmin, rfl⟩⟩
    have := (candidates_le_iff halign hstart j).1 hjle
    omega
  · have hnone : ∀ k, start + k * align ≤ max_addr →
        ¬ accepted binfo mem st.rel size align start k := fun k hk hacc => hex ⟨k, hk, hacc⟩
    by_cases hstart : start ≤ max_addr
    · have hlastfail : (grub_relocator_alloc_chunk_addr binfo (mem ((max_addr - start) / align))
          st.rel (start + (max_addr - start) / align * align) size).err ≠ GRUB_ERR_NONE := by
        have := hnone ((max_addr - start) / align)
          ((candidates_le_iff halign hstart _).2 (Nat.lt_succ_self _))
        simpa [accepted] using this
      obtain ⟨h1, h2, -⟩ := alloc_addr_fail_result _ _ _ _ _ hlastfail
      exact ⟨_, align_loop_exhausted binfo mem max_addr size align start st halign hno hstart hnone,
        Or.inr ⟨hnone, h2, Or.inr ⟨hstart, hlastfail, h1, rfl⟩⟩⟩
    · refine ⟨st, ?_, Or.inr ⟨hnone, rfl, Or.inl ⟨by omega, rfl⟩⟩⟩
      intro fuel hfuel
      have hpos : 0 < fuel := Nat.lt_of_le_of_lt (Nat.zero_le _) hfuel
      obtain ⟨f, rfl⟩ : ∃ f, fuel = f + 1 := ⟨fuel - 1, by omega⟩
      exact align_loop_not_entered binfo mem max_addr size align start f st (by omega)

/-- A request that starts inside a held chunk and does not wrap is not
accepted. -/
theorem not_accepted_of_inside (binfo : grub_bhyve_info) (zalloc_ok : Bool)
    (rel : grub_relocator) (target size : Nat) (c : grub_relocator_chunk)
    (hc : c ∈ rel.head) (h1 : c.target ≤ target) (h2 : target < c.target + c.size)
    (h3 : c.target + c.size < U64) (h4 : target + size < U64) :
    grub_relocator_alloc_chunk_addr binfo zalloc_ok rel target size =
      ⟨GRUB_ERR_BAD_ARGUMENT, none, rel⟩ := by
  apply alloc_addr_overlap
  rw [overlaps_existing_iff]
  refine ⟨c, hc, ?_⟩
  have e1 : add64 c.target c.size = c.target + c.size := Nat.mod_eq_of_lt h3
  have e2 : add64 target size = target + size := Nat.mod_eq_of_lt h4
  simp only [grub_relocator_disjoint, e1, e2, Bool.or_eq_false_iff, decide_eq_false_iff_not]
  omega

/-! ## The end of the allocations -/

theorem getLast_is_greatest :
    ∀ (l : List grub_relocator_chunk) (x : grub_relocator_chunk), l.Pairwise chunk_before →
      (∀ c ∈ l, 0 < c.size) → l.getLast? = some x →
      x ∈ l ∧ ∀ c ∈ l, c.target ≤ x.target ∧ c.target + c.size ≤ x.target + x.size := by
  intro l
  induction l with
  | nil => intro x _ _ h; simp at h
  | cons a l ih =>
    intro x hp hpos h
    rw [List.pairwise_cons] at hp
    cases l with
    | nil =>
      simp only [List.getLast?_singleton, Option.some.injEq] at h
      subst h
      simp
    | cons b l' =>
      rw [List.getLast?_cons_cons] at h
      obtain ⟨hx, hall⟩ := ih x hp.2 (fun c hc => hpos c (List.mem_cons_of_mem _ hc)) h
      refine ⟨List.mem_cons_of_mem _ hx, ?_⟩
      intro c hc
      rcases List.mem_cons.1 hc with rfl | hc
      · have h1 := hp.1 x hx
        have h2 := hpos x (List.mem_cons_of_mem _ hx)
        simp only [chunk_before] at h1
        omega
      · exact hall c hc

theorem grub_relocator_end_nil : grub_relocator_end ⟨[]⟩ = 0 := rfl

/-- On a list that satisfies the invariant, `grub_relocator_end` is
`target + size` of a held chunk with the greatest target, and no chunk ends
above it. -/
theorem grub_relocator_end_spec (rel : grub_relocator) (hinv : rel_inv rel)
    (hne : rel.head ≠ []) :
    ∃ x ∈ rel.head, grub_relocator_end rel = x.target + x.size ∧
      ∀ c ∈ rel.head, c.target ≤ x.target ∧ c.target + c.size ≤ x.target + x.size := by
  obtain ⟨x, hx⟩ : ∃ x, rel.head.getLast? = some x := by
    cases h : rel.head.getLast? with
    | none => exact absurd (List.getLast?_eq_none_iff.1 h) hne
    | some x => exact ⟨x, rfl⟩
  obtain ⟨hmem, hall⟩ := getLast_is_greatest rel.head x hinv.1 (fun c hc => (hinv.2 c hc).1) hx
  refine ⟨x, hmem, ?_, hall⟩
  simp only [grub_relocator_end, hx]
  exact Nat.mod_eq_of_lt (hinv.2 x hmem).2

theorem grub_relocator_end_bound (rel : grub_relocator) (hinv : rel_inv rel) :
    grub_relocator_end rel < U64 ∧
      ∀ c ∈ rel.head, c.target + c.size ≤ grub_relocator_end rel := by
  by_cases hne : rel.head = []
  · have : rel = ⟨[]⟩ := by cases rel; simp_all
    subst this
    exact ⟨by decide, fun c hc => absurd hc (List.not_mem_nil _)⟩
  · obtain ⟨x, hx, he, hall⟩ := grub_relocator_end_spec rel hinv hne
    rw [he]
    exact ⟨(hinv.2 x hx).2, fun c hc => (hall c hc).2⟩

/-- C11, as amended.  End-of-allocations: for every relocator state reached
from the empty relocator by allocation calls with `size > 0` whose requests
cannot pass `2 ^ 64`, `grub_relocator_end` returns 0 when no chunk is held,
and otherwise `target + size` of a held chunk with the greatest target,
which is the maximum of `target + size` over the held chunks: no held chunk
has an address at or above the returned value. -/
theorem grub_relocator_end_is_top (binfo : grub_bhyve_info) (fuel : Nat)
    (calls : List alloc_call) (rel' : grub_relocator)
    (hcalls : ∀ c ∈ calls, c.no_wrap)
    (hrun : run_calls binfo fuel calls grub_relocator_new = some rel') :
    (rel'.head = [] → grub_relocator_end rel' = 0) ∧
    (rel'.head ≠ [] →
      ∃ x ∈ rel'.head, grub_relocator_end rel' = x.target + x.size ∧
        ∀ c ∈ rel'.head, c.target ≤ x.target ∧ c.target + c.size ≤ x.target + x.size) ∧
    (∀ c ∈ rel'.head, ∀ a, c.target ≤ a → a < c.target + c.size →
      a < grub_relocator_end rel') := by
  have hinv := run_calls_rel_inv binfo fuel calls _ rel' rel_inv_new hcalls hrun
  refine ⟨?_, grub_relocator_end_spec rel' hinv, ?_⟩
  · intro h
    simp [grub_relocator_end, h]
  · intro c hc a _ ha
    have := (grub_relocator_end_bound rel' hinv).2 c hc
    omega

/-- C11, witness: two placements made out of address order; the end of the
allocations is `0x6000`. -/
theorem grub_relocator_end_is_top_witness :
    ((⟨[⟨0x1000, 0x1000⟩, ⟨0x5000, 0x1000⟩]⟩ : grub_relocator).head = [] →
      grub_relocator_end ⟨[⟨0x1000, 0x1000⟩, ⟨0x5000, 0x1000⟩]⟩ = 0) ∧
    ((⟨[⟨0x1000, 0x1000⟩, ⟨0x5000, 0x1000⟩]⟩ : grub_relocator).head ≠ [] →
      ∃ x ∈ (⟨[⟨0x1000, 0x1000⟩, ⟨0x5000, 0x1000⟩]⟩ : grub_relocator).head,
        grub_relocator_end ⟨[⟨0x1000, 0x1000⟩, ⟨0x5000, 0x1000⟩]⟩ = x.target + x.size ∧
        ∀ c ∈ (⟨[⟨0x1000, 0x1000⟩, ⟨0x5000, 0x1000⟩]⟩ : grub_relocator).head,
          c.target ≤ x.target ∧ c.target + c.size ≤ x.target + x.size) ∧
    (∀ c ∈ (⟨[⟨0x1000, 0x1000⟩, ⟨0x5000, 0x1000⟩]⟩ : grub_relocator).head,
      ∀ a, c.target ≤ a → a < c.target + c.size →
        a < grub_relocator_end ⟨[⟨0x1000, 0x1000⟩, ⟨0x5000, 0x1000⟩]⟩) :=
  grub_relocator_end_is_top binfo_256M 1
    [.chunk_addr true 0x5000 0x1000, .chunk_addr true 0x1000 0x1000]
    ⟨[⟨0x1000, 0x1000⟩, ⟨0x5000, 0x1000⟩]⟩
    (by
      intro c hc
      simp only [List.mem_cons, List.mem_singleton, List.not_mem_nil, or_false] at hc
      rcases hc with rfl | rfl <;>
        simp [alloc_call.no_wrap, alloc_call.size, alloc_call.top, U64])
    (by decide)

/-- C11, counterexample.  After the calls `(0x1000, 2 ^ 64 - 0x800)` and
`(0x2000, 0x100)`, both with `size > 0`, both chunks are held and
`grub_relocator_end` returns `0x2100`, the end of the chunk with the
greatest target; the other chunk contains the address `0x2100` (and every
address up to `2 ^ 64 - 1`), and its `target + size` is larger. -/
theorem grub_relocator_end_below_wrapped_chunk :
    run_calls binfo_256M 1
      [.chunk_addr true 0x1000 (U64 - 0x800), .chunk_addr true 0x2000 0x100]
      grub_relocator_new = some ⟨[⟨0x1000, U64 - 0x800⟩, ⟨0x2000, 0x100⟩]⟩ ∧
    grub_relocator_end ⟨[⟨0x1000, U64 - 0x800⟩, ⟨0x2000, 0x100⟩]⟩ = 0x2100 ∧
    (0x1000 ≤ 0x2100 ∧ 0x2100 < 0x1000 + (U64 - 0x800)) := by
  decide

/-! ## The 32-bit boot -/

theorem get_physical_target_address_mk (target size : Nat) :
    get_physical_target_address ⟨target, size⟩ = target := rfl

theorem boot_window_floor (bootsz : Nat) (hboot : bootsz < 2 ^ 31) :
    ALIGN_UP (search_floor 0x0200 0xF000 bootsz 8) 8 = 0x200 := by
  have h : search_floor 0x0200 0xF000 bootsz 8 = 0x200 := by
    simp only [search_floor, add64, ONE_MB, U64]
    rw [if_pos (by decide), if_neg (by omega)]
  rw [h]
  decide

/-- The search of `grub_relocator32_boot` always returns: with fuel for the
7617 candidates `0x200 + 8 k <= 0xF000` it yields the first accepted
candidate, or fails and leaves the relocator as it was. -/
theorem boot_search_total (binfo : grub_bhyve_info) (mem : Nat → Bool)
    (err0 : grub_err_t) (ch0 : Option grub_relocator_chunk) (rel : grub_relocator)
    (hboot : binfo.bootsz < 2 ^ 31) :
    ∃ r1, (∀ fuel, 7617 < fuel →
        grub_relocator_alloc_chunk_align binfo mem err0 ch0 fuel rel
          0x0200 0xF000 binfo.bootsz 8 = some r1) ∧
      ((∃ j, 0x200 + j * 8 ≤ 0xF000 ∧
          (grub_relocator_alloc_chunk_addr binfo (mem j) rel (0x200 + j * 8)
            binfo.bootsz).err = GRUB_ERR_NONE ∧
          r1 = ⟨GRUB_ERR_NONE, some ⟨0x200 + j * 8, binfo.bootsz⟩,
            ⟨insert_chunk ⟨0x200 + j * 8, binfo.bootsz⟩ rel.head⟩⟩) ∨
       ((∀ k, 0x200 + k * 8 ≤ 0xF000 →
          (grub_relocator_alloc_chunk_addr binfo (mem k) rel (0x200 + k * 8)
            binfo.bootsz).err ≠ GRUB_ERR_NONE) ∧
        r1.err ≠ GRUB_ERR_NONE ∧ r1.out = none ∧ r1.rel = rel)) := by
  obtain ⟨r, hr, hcase⟩ := align_loop_total binfo mem 0xF000 binfo.bootsz 8 0x200
    ⟨err0, ch0, rel⟩ (by decide) (by decide)
  refine ⟨r, ?_, ?_⟩
  · intro fuel hfuel
    rw [grub_relocator_alloc_chunk_align, boot_window_floor _ hboot]
    exact hr fuel hfuel
  · rcases hcase with ⟨j, h1, h2, -, h4⟩ | ⟨h1, h2, h3⟩
    · exact Or.inl ⟨j, h1, h2, h4⟩
    · refine Or.inr ⟨h1, ?_, ?_, h2⟩
      · rcases h3 with ⟨h, -⟩ | ⟨-, h, -, -⟩
        · exact absurd h (by decide)
        · exact h
      · rcases h3 with ⟨h, -⟩ | ⟨-, -, h, -⟩
        · exact absurd h (by decide)
        · exact h

theorem boot_of_search (binfo : grub_bhyve_info) (mem : Nat → Bool) (zalloc_ok : Bool)
    (vmok : Nat → Bool) (err0 : grub_err_t) (ch0 : Option grub_relocator_chunk)
    (fuel : Nat) (rel : grub_relocator) (state : grub_relocator32_state) (r1 : alloc_result)
    (h : grub_relocator_alloc_chunk_align binfo mem err0 ch0 fuel rel
      0x0200 0xF000 binfo.bootsz 8 = some r1) :
    grub_relocator32_boot binfo mem zalloc_ok vmok err0 ch0 fuel rel state =
      some (boot32_after_search binfo zalloc_ok vmok r1 state) := by
  simp only [grub_relocator32_boot, h]

/-- When a held chunk covers every candidate of the low window, the search
of `grub_relocator32_boot` fails with the overlap error of its last probe. -/
theorem boot_search_blocked (binfo : grub_bhyve_info) (mem : Nat → Bool)
    (err0 : grub_err_t) (ch0 : Option grub_relocator_chunk) (rel : grub_relocator)
    (c : grub_relocator_chunk) (hboot : binfo.bootsz < 2 ^ 31)
    (hc : c ∈ rel.head) (h1 : c.target ≤ 0x200) (h2 : 0xF000 < c.target + c.size)
    (h3 : c.target + c.size < U64) :
    ∀ fuel, 7617 < fuel →
      grub_relocator_alloc_chunk_align binfo mem err0 ch0 fuel rel
        0x0200 0xF000 binfo.bootsz 8 = some ⟨GRUB_ERR_BAD_ARGUMENT, none, rel⟩ := by
  have hin : ∀ (z : Bool) (k : Nat), 0x200 + k * 8 ≤ 0xF000 →
      grub_relocator_alloc_chunk_addr binfo z rel (0x200 + k * 8) binfo.bootsz =
        ⟨GRUB_ERR_BAD_ARGUMENT, none, rel⟩ := by
    intro z k hk
    apply not_accepted_of_inside binfo z rel _ _ c hc (by omega) (by omega) h3
    simp only [U64]
    omega
  intro fuel hfuel
  rw [grub_relocator_alloc_chunk_align, boot_window_floor _ hboot,
    align_loop_exhausted binfo mem 0xF000 binfo.bootsz 8 0x200 ⟨err0, ch0, rel⟩ (by decide)
      (by decide) (by decide) ?_ fuel hfuel]
  · exact congrArg some (hin _ 7616 (by decide))
  · intro k hk hacc
    simp only [accepted] at hacc
    rw [hin _ k hk] at hacc
    cases hacc

/-- C12.  Fallback placement in the 32-bit boot: for every relocator state
(and `bootsz` an `int` that holds a size), `grub_relocator32_boot` first
requests the scratch block through the search
`(min = 0x200, max = 0xF000, size = bootsz, align = 8)`, which returns; when
the search succeeds its chunk is the scratch chunk, at an 8-byte aligned
address of the window, and no second request is made; when it fails the
relocator is unchanged and the outcome is that of
`grub_relocator_alloc_chunk_addr` at exactly
`ALIGN_UP (grub_relocator_end rel) 8`, and if that succeeds the scratch
chunk's target is that value. -/
theorem boot32_scratch_placement (binfo : grub_bhyve_info) (mem : Nat → Bool)
    (zalloc_ok : Bool) (vmok : Nat → Bool) (err0 : grub_err_t)
    (ch0 : Option grub_relocator_chunk) (rel : grub_relocator)
    (state : grub_relocator32_state) (hboot : binfo.bootsz < 2 ^ 31) :
    ∃ r1 b,
      (∀ fuel, 7617 < fuel →
        grub_relocator_alloc_chunk_align binfo mem err0 ch0 fuel rel
          0x0200 0xF000 binfo.bootsz 8 = some r1 ∧
        grub_relocator32_boot binfo mem zalloc_ok vmok err0 ch0 fuel rel state = some b) ∧
      (r1.err = GRUB_ERR_NONE →
        b.err = GRUB_ERR_NONE ∧ b.rel = r1.rel ∧ b.ch = r1.out ∧
        ∃ c, b.ch = some c ∧ c.size = binfo.bootsz ∧
          0x200 ≤ get_physical_target_address c ∧ get_physical_target_address c ≤ 0xF000 ∧
          8 ∣ get_physical_target_address c) ∧
      (r1.err ≠ GRUB_ERR_NONE →
        r1.rel = rel ∧
        b.err = (grub_relocator_alloc_chunk_addr binfo zalloc_ok rel
          (ALIGN_UP (grub_relocator_end rel) 8) binfo.bootsz).err ∧
        b.rel = (grub_relocator_alloc_chunk_addr binfo zalloc_ok rel
          (ALIGN_UP (grub_relocator_end rel) 8) binfo.bootsz).rel ∧
        b.ch = (grub_relocator_alloc_chunk_addr binfo zalloc_ok rel
          (ALIGN_UP (grub_relocator_end rel) 8) binfo.bootsz).out ∧
        (b.err = GRUB_ERR_NONE →
          ∃ c, b.ch = some c ∧ c.size = binfo.bootsz ∧
            get_physical_target_address c = ALIGN_UP (grub_relocator_end rel) 8)) := by
  obtain ⟨r1, hr1, hcase⟩ := boot_search_total binfo mem err0 ch0 rel hboot
  refine ⟨r1, boot32_after_search binfo zalloc_ok vmok r1 state, ?_, ?_, ?_⟩
  · intro fuel hfuel
    exact ⟨hr1 fuel hfuel, boot_of_search _ _ _ _ _ _ _ _ _ _ (hr1 fuel hfuel)⟩
  · intro hok
    rcases hcase with ⟨j, h1, -, h3⟩ | ⟨-, h2, -, -⟩
    · subst h3
      refine ⟨rfl, rfl, rfl, ⟨0x200 + j * 8, binfo.bootsz⟩, rfl, rfl, ?_, h1, ?_⟩
      · simp only [get_physical_target_address]
        omega
      · exact ⟨0x40 + j, by simp only [get_physical_target_address]; omega⟩
    · exact absurd hok h2
  · intro hfail
    have hrel : r1.rel = rel := by
      rcases hcase with ⟨j, -, -, h3⟩ | ⟨-, -, -, h4⟩
      · exact absurd (by rw [h3]) hfail
      · exact h4
    refine ⟨hrel, ?_, ?_, ?_, ?_⟩
    · simp only [boot32_after_search, hfail, ne_eq, not_false_eq_true, if_true, hrel]
    · simp only [boot32_after_search, hfail, ne_eq, not_false_eq_true, if_true, hrel]
    · simp only [boot32_after_search, hfail, ne_eq, not_false_eq_true, if_true, hrel]
    · intro hok
      simp only [boot32_after_search, hfail, ne_eq, not_false_eq_true, if_true, hrel] at hok ⊢
      rw [alloc_addr_ok_result _ _ _ _ _ hok]
      exact ⟨⟨ALIGN_UP (grub_relocator_end rel) 8, binfo.bootsz⟩, rfl, rfl,
        get_physical_target_address_mk _ _⟩

/-- C12, witness: the chunk `(0, 0x10000)` consumes the whole window, the
search fails and the scratch block lands at
`ALIGN_UP (grub_relocator_end rel) 8 = 0x10000`. -/
theorem boot32_scratch_placement_witness :
    ∃ b, (∀ fuel, 7617 < fuel →
        grub_relocator32_boot binfo_256M (fun _ => true) true (fun _ => true) (other 0) none
          fuel ⟨[⟨0, 0x10000⟩]⟩ state_1M = some b) ∧
      b.err = GRUB_ERR_NONE ∧
      ALIGN_UP (grub_relocator_end ⟨[⟨0, 0x10000⟩]⟩) 8 = 0x10000 ∧
      b.ch = some ⟨0x10000, 40⟩ := by
  obtain ⟨r1, b, hrun, -, hfb⟩ :=
    boot32_scratch_placement binfo_256M (fun _ => true) true (fun _ => true) (other 0) none
      ⟨[⟨0, 0x10000⟩]⟩ state_1M (by decide)
  have hblocked := boot_search_blocked binfo_256M (fun _ => true) (other 0) none
    ⟨[⟨0, 0x10000⟩]⟩ ⟨0, 0x10000⟩ (by decide) (by simp) (by decide) (by decide) (by decide)
    7618 (by decide)
  have hr1 : r1 = ⟨GRUB_ERR_BAD_ARGUMENT, none, ⟨[⟨0, 0x10000⟩]⟩⟩ :=
    Option.some.inj (((hrun 7618 (by decide)).1).symm.trans hblocked)
  obtain ⟨-, herr, -, hch, -⟩ := hfb (by rw [hr1]; decide)
  refine ⟨b, fun fuel hfuel => (hrun fuel hfuel).2, ?_, by decide, ?_⟩
  · rw [herr]
    decide
  · rw [hch]
    decide

theorem alloc_addr_err_cases (binfo : grub_bhyve_info) (zalloc_ok : Bool)
    (rel : grub_relocator) (target size : Nat)
    (h : overlaps_existing rel target size = false) :
    (grub_relocator_alloc_chunk_addr binfo zalloc_ok rel target size).err = GRUB_ERR_NONE ∨
    (grub_relocator_alloc_chunk_addr binfo zalloc_ok rel target size).err
      = GRUB_ERR_OUT_OF_RANGE ∨
    (grub_relocator_alloc_chunk_addr binfo zalloc_ok rel target size).err
      = GRUB_ERR_OUT_OF_MEMORY := by
  unfold grub_relocator_alloc_chunk_addr
  simp only [h, Bool.false_eq_true, if_false]
  split_ifs <;> simp

/-- On a list that satisfies the invariant and ends at least 8 bytes below
`2 ^ 64`, the fallback request of `grub_relocator32_boot` starts at or after
the end of every held chunk and passes the disjointness test. -/
theorem fallback_disjoint (rel : grub_relocator) (size : Nat) (hinv : rel_inv rel)
    (hend : grub_relocator_end rel + 8 ≤ U64) :
    (∀ c ∈ rel.head, c.target + c.size ≤ ALIGN_UP (grub_relocator_end rel) 8) ∧
    overlaps_existing rel (ALIGN_UP (grub_relocator_end rel) 8) size = false := by
  have hle : grub_relocator_end rel ≤ ALIGN_UP (grub_relocator_end rel) 8 :=
    (ALIGN_UP_least (grub_relocator_end rel) 3 (by decide) hend).1
  have hall : ∀ c ∈ rel.head, c.target + c.size ≤ ALIGN_UP (grub_relocator_end rel) 8 :=
    fun c hc => Nat.le_trans ((grub_relocator_end_bound rel hinv).2 c hc) hle
  refine ⟨hall, ?_⟩
  rw [overlaps_existing_false_iff]
  intro c hc
  have e1 : add64 c.target c.size = c.target + c.size := Nat.mod_eq_of_lt (hinv.2 c hc).2
  simp only [grub_relocator_disjoint, e1, Bool.or_eq_true, decide_eq_true_eq]
  exact Or.inl (hall c hc)

/-- C13, as amended.  Result set of the 32-bit boot: for every relocator
state reached from the empty relocator by allocation calls with `size > 0`
whose requests cannot pass `2 ^ 64`, and whose end of allocations is at
least 8 bytes below `2 ^ 64` (and `bootsz` an `int` that holds a size),
`grub_relocator32_boot` comes to its end with `err` equal to
`GRUB_ERR_NONE`, `GRUB_ERR_OUT_OF_RANGE` or `GRUB_ERR_OUT_OF_MEMORY`, never
`GRUB_ERR_BAD_ARGUMENT`: the fallback request at
`ALIGN_UP (grub_relocator_end rel) 8` shares no address with a held chunk
and passes the overlap test. -/
theorem boot32_never_overlap (binfo : grub_bhyve_info) (fuel0 : Nat)
    (calls : List alloc_call) (rel : grub_relocator) (mem : Nat → Bool)
    (zalloc_ok : Bool) (vmok : Nat → Bool) (err0 : grub_err_t)
    (ch0 : Option grub_relocator_chunk) (state : grub_relocator32_state)
    (hboot : binfo.bootsz < 2 ^ 31) (hcalls : ∀ c ∈ calls, c.no_wrap)
    (hrun : run_calls binfo fuel0 calls grub_relocator_new = some rel)
    (hend : grub_relocator_end rel + 8 ≤ U64) :
    ∃ b, (∀ fuel, 7617 < fuel →
        grub_relocator32_boot binfo mem zalloc_ok vmok err0 ch0 fuel rel state = some b) ∧
      (b.err = GRUB_ERR_NONE ∨ b.err = GRUB_ERR_OUT_OF_RANGE ∨
        b.err = GRUB_ERR_OUT_OF_MEMORY) ∧
      b.err ≠ GRUB_ERR_BAD_ARGUMENT ∧
      (∀ c ∈ rel.head, ¬ shares_address (ALIGN_UP (grub_relocator_end rel) 8) binfo.bootsz
        c.target c.size) ∧
      overlaps_existing rel (ALIGN_UP (grub_relocator_end rel) 8) binfo.bootsz = false := by
  have hinv := run_calls_rel_inv binfo fuel0 calls _ rel rel_inv_new hcalls hrun
  obtain ⟨hall, hdis⟩ := fallback_disjoint rel binfo.bootsz hinv hend
  obtain ⟨r1, hr1, hcase⟩ := boot_search_total binfo mem err0 ch0 rel hboot
  have herr : (boot32_after_search binfo zalloc_ok vmok r1 state).err = GRUB_ERR_NONE ∨
      (boot32_after_search binfo zalloc_ok vmok r1 state).err = GRUB_ERR_OUT_OF_RANGE ∨
      (boot32_after_search binfo zalloc_ok vmok r1 state).err = GRUB_ERR_OUT_OF_MEMORY := by
    rcases hcase with ⟨j, -, -, h3⟩ | ⟨-, h2, -, h4⟩
    · left
      simp [boot32_after_search, h3]
    · simp only [boot32_after_search, h2, ne_eq, not_false_eq_true, if_true, h4]
      exact alloc_addr_err_cases binfo zalloc_ok rel _ _ hdis
  refine ⟨_, fun fuel hfuel => boot_of_search _ _ _ _ _ _ _ _ _ _ (hr1 fuel hfuel),
    herr, ?_, ?_, hdis⟩
  · rcases herr with h | h | h <;> rw [h] <;> decide
  · rintro c hc ⟨a, ⟨h1, -⟩, -, h4⟩
    have := hall c hc
    omega

/-- C13, witness: the chunk `(0, 0x10000)` consumes the window and the
fallback request at `0x10000` succeeds. -/
theorem boot32_never_overlap_witness :
    ∃ b, (∀ fuel, 7617 < fuel →
        grub_relocator32_boot binfo_256M (fun _ => true) true (fun _ => true) (other 0) none
          fuel ⟨[⟨0, 0x10000⟩]⟩ state_1M = some b) ∧
      (b.err = GRUB_ERR_NONE ∨ b.err = GRUB_ERR_OUT_OF_RANGE ∨
        b.err = GRUB_ERR_OUT_OF_MEMORY) ∧
      b.err ≠ GRUB_ERR_BAD_ARGUMENT ∧
      (∀ c ∈ (⟨[⟨0, 0x10000⟩]⟩ : grub_relocator).head,
        ¬ shares_address (ALIGN_UP (grub_relocator_end ⟨[⟨0, 0x10000⟩]⟩) 8) binfo_256M.bootsz
          c.target c.size) ∧
      overlaps_existing ⟨[⟨0, 0x10000⟩]⟩ (ALIGN_UP (grub_relocator_end ⟨[⟨0, 0x10000⟩]⟩) 8)
        binfo_256M.bootsz = false :=
  boot32_never_overlap binfo_256M 1 [.chunk_addr true 0 0x10000] ⟨[⟨0, 0x10000⟩]⟩
    (fun _ => true) true (fun _ => true) (other 0) none state_1M (by decide)
    (by
      intro c hc
      simp only [List.mem_singleton] at hc
      subst hc
      simp [alloc_call.no_wrap, alloc_call.size, alloc_call.top, U64])
    (by decide) (by decide)

/-- C13, counterexample, in two parts.  (1) In the table of a 256 MiB guest,
the calls `(0, 0x10000)` and `(0x20000, 2 ^ 64 - 0x1F000)`, both with
`size > 0`, are both placed (the second wraps); the window search of
`grub_relocator32_boot` fails on the first chunk, `grub_relocator_end` is
the wrapped `0x1000`, and the fallback request `(0x1000, 40)` lies inside
the first chunk: the boot returns `GRUB_ERR_BAD_ARGUMENT`.  (2) In a table
with a segment up to `2 ^ 64 - 2`, after the calls `(0, 0x10000)` and
`(2 ^ 64 - 8, 4)`, neither of which wraps, the end of allocations is
`2 ^ 64 - 4`, `ALIGN_UP` of it wraps to 0 and the fallback request `(0, 40)`
overlaps the first chunk: `GRUB_ERR_BAD_ARGUMENT` again. -/
theorem boot32_returns_overlap :
    (run_calls binfo_256M 1
        [.chunk_addr true 0 0x10000, .chunk_addr true 0x20000 (U64 - 0x1F000)]
        grub_relocator_new = some ⟨[⟨0, 0x10000⟩, ⟨0x20000, U64 - 0x1F000⟩]⟩ ∧
      ∀ fuel, 7617 < fuel →
        (grub_relocator32_boot binfo_256M (fun _ => true) true (fun _ => true) (other 0) none
          fuel ⟨[⟨0, 0x10000⟩, ⟨0x20000, U64 - 0x1F000⟩]⟩ state_1M).map (fun b => b.err)
          = some GRUB_ERR_BAD_ARGUMENT) ∧
    (run_calls binfo_top 1
        [.chunk_addr true 0 0x10000, .chunk_addr true (U64 - 8) 4]
        grub_relocator_new = some ⟨[⟨0, 0x10000⟩, ⟨U64 - 8, 4⟩]⟩ ∧
      (U64 - 8) + 4 ≤ U64 ∧
      ∀ fuel, 7617 < fuel →
        (grub_relocator32_boot binfo_top (fun _ => true) true (fun _ => true) (other 0) none
          fuel ⟨[⟨0, 0x10000⟩, ⟨U64 - 8, 4⟩]⟩ state_1M).map (fun b => b.err)
          = some GRUB_ERR_BAD_ARGUMENT) := by
  refine ⟨⟨by decide, ?_⟩, by decide, by decide, ?_⟩
  · intro fuel hfuel
    rw [boot_of_search _ _ _ _ _ _ _ _ _ _
      (boot_search_blocked binfo_256M (fun _ => true) (other 0) none _ ⟨0, 0x10000⟩
        (by decide) (by simp) (by decide) (by decide) (by decide) fuel hfuel)]
    decide
  · intro fuel hfuel
    rw [boot_of_search _ _ _ _ _ _ _ _ _ _
      (boot_search_blocked binfo_top (fun _ => true) (other 0) none _ ⟨0, 0x10000⟩
        (by decide) (by simp) (by decide) (by decide) (by decide) fuel hfuel)]
    decide


/-! ## The boot-state writes -/

theorem perform_all_ok (vmok : Nat → Bool) (hok : ∀ i, vmok i = true) :
    ∀ (ops : List vm_event) (i : Nat) (rest : List vm_event),
      perform vmok i ops rest = ops ++ rest := by
  intro ops
  induction ops with
  | nil => intro i rest; rfl
  | cons e es ih =>
    intro i rest
    simp [perform, hok, ih]

theorem perform_cases (vmok : Nat → Bool) :
    ∀ (ops : List vm_event) (i : Nat) (rest : List vm_event),
      perform vmok i ops rest = ops ++ rest ∨
      ∃ pre, pre <+: ops ∧ perform vmok i ops rest = pre ++ [vm_event.abort] := by
  intro ops
  induction ops with
  | nil => intro i rest; exact Or.inl rfl
  | cons e es ih =>
    intro i rest
    by_cases h : (e.asserted && !vmok i) = true
    · right
      exact ⟨[], List.nil_prefix, by simp [perform, h]⟩
    · rcases ih (i + 1) rest with h1 | ⟨pre, hpre, h1⟩
      · left
        simp [perform, h, h1]
      · right
        refine ⟨e :: pre, ?_, by simp [perform, h, h1]⟩
        obtain ⟨t, rfl⟩ := hpre
        exact ⟨t, rfl⟩

theorem reboot_not_in_writes (bt : Nat) (rs : grub_relocator32_state) :
    vm_event.reboot ∉ boot32_writes bt rs := by
  simp [boot32_writes]

/-- The trace of `grub_emu_bhyve_boot32`: all writes and then the signal if
`bt` is not zero, or a prefix of the writes and the end of the process. -/
theorem boot32_trace_cases (vmok : Nat → Bool) (bt : Nat) (rs : grub_relocator32_state) :
    (grub_emu_bhyve_boot32 vmok bt rs =
        boot32_writes bt rs ++ (if bt ≠ 0 then [vm_event.reboot] else [])) ∨
    (vm_event.reboot ∉ grub_emu_bhyve_boot32 vmok bt rs) := by
  rcases perform_cases vmok (boot32_writes bt rs) 0 (if bt ≠ 0 then [vm_event.reboot] else [])
    with h | ⟨pre, hpre, h⟩
  · exact Or.inl h
  · right
    rw [grub_emu_bhyve_boot32, h]
    intro hmem
    rcases List.mem_append.1 hmem with h1 | h1
    · exact reboot_not_in_writes bt rs (hpre.subset h1)
    · simp at h1


/-- C14, as amended.  32-bit entry state: for every register bundle `rs` and
every non-zero scratch address `bt`, after `grub_emu_bhyve_boot32 (bt, rs)`
in which every register write succeeds, the code-segment selector is
`0x10` and refers to entry 2 of the copied table
(null, null, code, data, task-state), its first non-null descriptor, the
code descriptor; the data, extra and stack selectors (and `FS`, `GS`) are
`0x18` and refer to entry 3, the second non-null descriptor, the data
descriptor; `CR0` has the paging bit clear and the protection-enable bit
set; the instruction pointer is `rs.eip`. -/
theorem boot32_entry_state (vmok : Nat → Bool) (bt : Nat) (rs : grub_relocator32_state)
    (hok : ∀ i, vmok i = true) (hbt : bt ≠ 0) :
    vcpu_register VM_REG_GUEST_CS (grub_emu_bhyve_boot32 vmok bt rs) = some 0x10 ∧
    selector_index 0x10 = GUEST_CODE_SEL ∧
    some (gdt_entry (selector_index 0x10)) = non_null_entries[0]? ∧
    gdt_entry (selector_index 0x10) = [0xffff, 0x0000, 0x9a00, 0x00cf] ∧
    (∀ r, r = VM_REG_GUEST_DS ∨ r = VM_REG_GUEST_ES ∨ r = VM_REG_GUEST_SS ∨
        r = VM_REG_GUEST_FS ∨ r = VM_REG_GUEST_GS →
      vcpu_register r (grub_emu_bhyve_boot32 vmok bt rs) = some 0x18) ∧
    selector_index 0x18 = GUEST_DATA_SEL ∧
    some (gdt_entry (selector_index 0x18)) = non_null_entries[1]? ∧
    gdt_entry (selector_index 0x18) = [0xffff, 0x0000, 0x9200, 0x00cf] ∧
    (∃ cr0, vcpu_register VM_REG_GUEST_CR0 (grub_emu_bhyve_boot32 vmok bt rs) = some cr0 ∧
      cr0 &&& CR0_PG = 0 ∧ cr0 &&& CR0_PE = CR0_PE) ∧
    vcpu_register VM_REG_GUEST_RIP (grub_emu_bhyve_boot32 vmok bt rs) = some rs.eip := by
  have htr : grub_emu_bhyve_boot32 vmok bt rs = boot32_writes bt rs ++ [vm_event.reboot] := by
    rw [grub_emu_bhyve_boot32, perform_all_ok vmok hok, if_pos hbt]
  rw [htr]
  refine ⟨rfl, by decide, by decide, by decide, ?_, by decide, by decide, by decide,
    ⟨CR0_PE, rfl, by decide, by decide⟩, rfl⟩
  intro r hr
  rcases hr with rfl | rfl | rfl | rfl | rfl <;> rfl

/-- C14, witness: entry `0x00100000`, stack `0x00090000`, scratch block at
`0x200`. -/
theorem boot32_entry_state_witness :
    vcpu_register VM_REG_GUEST_CS (grub_emu_bhyve_boot32 (fun _ => true) 0x200 state_1M)
      = some 0x10 ∧
    selector_index 0x10 = GUEST_CODE_SEL ∧
    some (gdt_entry (selector_index 0x10)) = non_null_entries[0]? ∧
    gdt_entry (selector_index 0x10) = [0xffff, 0x0000, 0x9a00, 0x00cf] ∧
    (∀ r, r = VM_REG_GUEST_DS ∨ r = VM_REG_GUEST_ES ∨ r = VM_REG_GUEST_SS ∨
        r = VM_REG_GUEST_FS ∨ r = VM_REG_GUEST_GS →
      vcpu_register r (grub_emu_bhyve_boot32 (fun _ => true) 0x200 state_1M) = some 0x18) ∧
    selector_index 0x18 = GUEST_DATA_SEL ∧
    some (gdt_entry (selector_index 0x18)) = non_null_entries[1]? ∧
    gdt_entry (selector_index 0x18) = [0xffff, 0x0000, 0x9200, 0x00cf] ∧
    (∃ cr0, vcpu_register VM_REG_GUEST_CR0
        (grub_emu_bhyve_boot32 (fun _ => true) 0x200 state_1M) = some cr0 ∧
      cr0 &&& CR0_PG = 0 ∧ cr0 &&& CR0_PE = CR0_PE) ∧
    vcpu_register VM_REG_GUEST_RIP (grub_emu_bhyve_boot32 (fun _ => true) 0x200 state_1M)
      = some 0x00100000 :=
  boot32_entry_state (fun _ => true) 0x200 state_1M (fun _ => rfl) (by decide)

/-- C14, counterexample.  In the entry scenario of the spec (entry
`0x00100000`, stack `0x00090000`, every write successful) the code-segment
selector is `0x10` and refers to entry 2 of the table
(null, null, code, data, task-state): that is the first non-null
descriptor, not the second, which is the data descriptor; the data selector
`0x18` refers to entry 3, the second non-null descriptor, not the third,
which is the task-state descriptor. -/
theorem boot32_selectors_not_second_and_third :
    vcpu_register VM_REG_GUEST_CS (grub_emu_bhyve_boot32 (fun _ => true) 0x200 state_1M)
      = some 0x10 ∧
    non_null_entries[1]? = some [0xffff, 0x0000, 0x9200, 0x00cf] ∧
    some (gdt_entry (selector_index 0x10)) ≠ non_null_entries[1]? ∧
    vcpu_register VM_REG_GUEST_DS (grub_emu_bhyve_boot32 (fun _ => true) 0x200 state_1M)
      = some 0x18 ∧
    vcpu_register VM_REG_GUEST_ES (grub_emu_bhyve_boot32 (fun _ => true) 0x200 state_1M)
      = some 0x18 ∧
    vcpu_register VM_REG_GUEST_SS (grub_emu_bhyve_boot32 (fun _ => true) 0x200 state_1M)
      = some 0x18 ∧
    non_null_entries[2]? = some [0x0000, 0x0000, 0x8900, 0x0080] ∧
    some (gdt_entry (selector_index 0x18)) ≠ non_null_entries[2]? := by
  decide

/-- C15.  No resume from a half-programmed state: every run of
`grub_relocator32_boot` (with `bootsz` an `int` that holds a size) comes to
its end; its trace holds the boot-completion signal `grub_reboot` at most
once; if it holds the signal, then `err` is `GRUB_ERR_NONE`, the scratch
chunk was placed by this run, the address handed to `grub_emu_bhyve_boot32`
is not zero, and the trace is exactly the register and descriptor writes
and the table copy of `grub_emu_bhyve_boot32`, all of them, followed by the
signal; if the placement fails, the trace is empty (no register written, no
signal) and the placement error is the result. -/
theorem boot32_signal_only_when_programmed (binfo : grub_bhyve_info) (mem : Nat → Bool)
    (zalloc_ok : Bool) (vmok : Nat → Bool) (err0 : grub_err_t)
    (ch0 : Option grub_relocator_chunk) (rel : grub_relocator)
    (state : grub_relocator32_state) (hboot : binfo.bootsz < 2 ^ 31) :
    ∃ b, (∀ fuel, 7617 < fuel →
        grub_relocator32_boot binfo mem zalloc_ok vmok err0 ch0 fuel rel state = some b) ∧
      b.trace.count vm_event.reboot ≤ 1 ∧
      (vm_event.reboot ∈ b.trace →
        b.err = GRUB_ERR_NONE ∧
        ∃ c, b.ch = some c ∧ c.size = binfo.bootsz ∧
          b.rel.head = insert_chunk c rel.head ∧
          get_physical_target_address c % U32 ≠ 0 ∧ get_physical_target_address c ≠ 0 ∧
          b.trace = boot32_writes (get_physical_target_address c % U32) state
            ++ [vm_event.reboot]) ∧
      (b.err ≠ GRUB_ERR_NONE →
        b.trace = [] ∧ b.rel = rel ∧ b.ch = none ∧
        (b.err = GRUB_ERR_BAD_ARGUMENT ∨ b.err = GRUB_ERR_OUT_OF_RANGE ∨
          b.err = GRUB_ERR_OUT_OF_MEMORY)) := by
  obtain ⟨r1, hr1, hcase⟩ := boot_search_total binfo mem err0 ch0 rel hboot
  refine ⟨_, fun fuel hfuel => boot_of_search _ _ _ _ _ _ _ _ _ _ (hr1 fuel hfuel), ?_⟩
  -- the result of the last placement request, `r2`, is a result of
  -- `grub_relocator_alloc_chunk_addr` on `rel`
  have hr2 : ∃ z t, boot32_after_search binfo zalloc_ok vmok r1 state =
      boot32_after_search binfo zalloc_ok vmok
        (grub_relocator_alloc_chunk_addr binfo z rel t binfo.bootsz) state ∧
      ((grub_relocator_alloc_chunk_addr binfo z rel t binfo.bootsz).err = GRUB_ERR_NONE ∨
       (r1.err ≠ GRUB_ERR_NONE ∧ r1.rel = rel ∧ z = zalloc_ok ∧
        t = ALIGN_UP (grub_relocator_end rel) 8)) := by
    rcases hcase with ⟨j, -, h2, h3⟩ | ⟨-, h2, -, h4⟩
    · refine ⟨mem j, 0x200 + j * 8, ?_, Or.inl h2⟩
      rw [h3, alloc_addr_ok_result _ _ _ _ _ h2]
    · by_cases hfb : (grub_relocator_alloc_chunk_addr binfo zalloc_ok rel
          (ALIGN_UP (grub_relocator_end rel) 8) binfo.bootsz).err = GRUB_ERR_NONE
      · refine ⟨zalloc_ok, ALIGN_UP (grub_relocator_end rel) 8, ?_, Or.inl hfb⟩
        simp only [boot32_after_search, h2, hfb, h4, ne_eq, not_false_eq_true, if_true,
          not_true_eq_false, if_false]
      · refine ⟨zalloc_ok, ALIGN_UP (grub_relocator_end rel) 8, ?_, Or.inr ⟨h2, h4, rfl, rfl⟩⟩
        have hfail := alloc_addr_fail_result _ _ _ _ _ hfb
        simp only [boot32_after_search, h2, hfb, h4, hfail.2.1, ne_eq, not_false_eq_true,
          if_true, not_true_eq_false, if_false]
  obtain ⟨z, t, hb, hz⟩ := hr2
  rw [hb]
  by_cases hok : (grub_relocator_alloc_chunk_addr binfo z rel t binfo.bootsz).err = GRUB_ERR_NONE
  · have hres := alloc_addr_ok_result _ _ _ _ _ hok
    have htrace : (boot32_after_search binfo zalloc_ok vmok
        (grub_relocator_alloc_chunk_addr binfo z rel t binfo.bootsz) state).trace =
        grub_emu_bhyve_boot32 vmok (t % U32) state := by
      rw [hres]
      simp [boot32_after_search, get_physical_target_address]
    have hfields : (boot32_after_search binfo zalloc_ok vmok
        (grub_relocator_alloc_chunk_addr binfo z rel t binfo.bootsz) state).err = GRUB_ERR_NONE ∧
        (boot32_after_search binfo zalloc_ok vmok
        (grub_relocator_alloc_chunk_addr binfo z rel t binfo.bootsz) state).ch
          = some ⟨t, binfo.bootsz⟩ ∧
        (boot32_after_search binfo zalloc_ok vmok
        (grub_relocator_alloc_chunk_addr binfo z rel t binfo.bootsz) state).rel.head
          = insert_chunk ⟨t, binfo.bootsz⟩ rel.head := by
      rw [hres]
      simp [boot32_after_search]
    rw [htrace]
    refine ⟨?_, ?_, fun h => absurd hfields.1 h⟩
    · rcases boot32_trace_cases vmok (t % U32) state with h | h
      · rw [h, List.count_append, List.count_eq_zero_of_not_mem (reboot_not_in_writes _ _)]
        split_ifs <;> simp
      · rw [List.count_eq_zero_of_not_mem h]
        exact Nat.zero_le _
    · intro hmem
      rcases boot32_trace_cases vmok (t % U32) state with h | h
      · have hne : t % U32 ≠ 0 := by
          intro h0
          rw [h, if_neg (by simpa using h0)] at hmem
          simp only [List.append_nil] at hmem
          exact reboot_not_in_writes _ _ hmem
        refine ⟨hfields.1, ⟨t, binfo.bootsz⟩, hfields.2.1, rfl, hfields.2.2, hne, ?_, ?_⟩
        · intro h0
          simp only [get_physical_target_address] at h0
          rw [h0] at hne
          exact hne (by decide)
        · rw [h, if_pos hne]
          rfl
      · exact absurd hmem h
  · have hfail := alloc_addr_fail_result _ _ _ _ _ hok
    have hr1fail : r1.err ≠ GRUB_ERR_NONE ∧ r1.rel = rel ∧ z = zalloc_ok ∧
        t = ALIGN_UP (grub_relocator_end rel) 8 := by
      rcases hz with h | h
      · exact absurd h hok
      · exact h
    have hafter : boot32_after_search binfo zalloc_ok vmok
        (grub_relocator_alloc_chunk_addr binfo z rel t binfo.bootsz) state =
        ⟨(grub_relocator_alloc_chunk_addr binfo z rel t binfo.bootsz).err, rel, none, []⟩ := by
      obtain ⟨-, -, hz', ht'⟩ := hr1fail
      subst hz' ht'
      simp only [boot32_after_search, hok, hfail.1, hfail.2.1, ne_eq, not_false_eq_true,
        if_true, if_false]
    rw [hafter]
    refine ⟨by simp, fun h => absurd h (by simp), fun _ => ⟨rfl, rfl, rfl, hfail.2.2⟩⟩

/-- C15, witness: the boot of the entry scenario on the empty relocator,
for which the signal is the last of 31 events. -/
theorem boot32_signal_only_when_programmed_witness :
    ∃ b, (∀ fuel, 7617 < fuel →
        grub_relocator32_boot binfo_256M (fun _ => true) true (fun _ => true) (other 0) none
          fuel grub_relocator_new state_1M = some b) ∧
      b.trace.count vm_event.reboot ≤ 1 ∧
      (vm_event.reboot ∈ b.trace →
        b.err = GRUB_ERR_NONE ∧
        ∃ c, b.ch = some c ∧ c.size = binfo_256M.bootsz ∧
          b.rel.head = insert_chunk c grub_relocator_new.head ∧
          get_physical_target_address c % U32 ≠ 0 ∧ get_physical_target_address c ≠ 0 ∧
          b.trace = boot32_writes (get_physical_target_address c % U32) state_1M
            ++ [vm_event.reboot]) ∧
      (b.err ≠ GRUB_ERR_NONE →
        b.trace = [] ∧ b.rel = grub_relocator_new ∧ b.ch = none ∧
        (b.err = GRUB_ERR_BAD_ARGUMENT ∨ b.err = GRUB_ERR_OUT_OF_RANGE ∨
          b.err = GRUB_ERR_OUT_OF_MEMORY)) :=
  boot32_signal_only_when_programmed binfo_256M (fun _ => true) true (fun _ => true)
    (other 0) none grub_relocator_new state_1M (by decide)


/-! ## Searches that do not end -/

/-- A search all of whose candidates stay at or below `max_addr` and are
rejected never leaves the loop: no amount of fuel yields a result. -/
theorem align_loop_diverges (binfo : grub_bhyve_info) (mem : Nat → Bool)
    (max_addr size align start : Nat) (st : alloc_result)
    (h : ∀ j, candidate align start j ≤ max_addr ∧
      (probe binfo mem st.rel size align start 0 j).err ≠ GRUB_ERR_NONE) :
    ∀ fuel, align_loop binfo mem max_addr size align fuel 0 start st = none := by
  intro fuel
  cases hr : align_loop binfo mem max_addr size align fuel 0 start st with
  | none => rfl
  | some r =>
    exfalso
    obtain ⟨j, -, -, hres⟩ := align_loop_spec binfo mem max_addr size align fuel 0 start st r hr
    rcases hres with ⟨-, h2, h3⟩ | ⟨h1, -, -⟩
    · exact (h j).2 (h2 ▸ h3)
    · have := (h j).1
      omega

theorem candidate_fixed (align start : Nat) (h : add64 start align = start) :
    ∀ j, candidate align start j = start := by
  intro j
  induction j with
  | zero => rfl
  | succ j ih => rw [candidate, h, ih]

theorem candidate_two_cycle (align a b : Nat) (hab : add64 a align = b)
    (hba : add64 b align = a) :
    ∀ j, (candidate align a j = a ∨ candidate align a j = b) ∧
      (candidate align b j = a ∨ candidate align b j = b) := by
  intro j
  induction j with
  | zero => exact ⟨Or.inl rfl, Or.inr rfl⟩
  | succ j ih =>
    rw [candidate, candidate, hab, hba]
    exact ⟨ih.2, ih.1⟩

/-- C16, as amended.  Termination of the anywhere-search: for `align >= 1`
and `max_addr + align < 2 ^ 64` (the candidates cannot wrap), with `start`
the `ALIGN_UP` of the search floor, `grub_relocator_alloc_chunk_align` runs
to completion after `p <= (max_addr - start) / align + 1` probes: it returns
as soon as the fuel exceeds `p`; either probe `p - 1` is the first accepted
one and its chunk is returned, or the `p` candidates up to `max_addr` were
all rejected, candidate `p` exceeds `max_addr` and the relocator is
unchanged. -/
theorem alloc_chunk_align_terminates (binfo : grub_bhyve_info) (mem : Nat → Bool)
    (err0 : grub_err_t) (out0 : Option grub_relocator_chunk)
    (rel : grub_relocator) (min_addr max_addr size align start : Nat)
    (hstart : start = ALIGN_UP (search_floor min_addr max_addr size align) align)
    (halign : 0 < align) (hno : max_addr + align < U64) :
    ∃ r p, p ≤ (max_addr - start) / align + 1 ∧
      (∀ fuel, p < fuel →
        grub_relocator_alloc_chunk_align binfo mem err0 out0 fuel rel
          min_addr max_addr size align = some r) ∧
      ((0 < p ∧ start + (p - 1) * align ≤ max_addr ∧
          accepted binfo mem rel size align start (p - 1) ∧
          (∀ i, i < p - 1 → ¬ accepted binfo mem rel size align start i) ∧
          r.err = GRUB_ERR_NONE ∧ r.out = some ⟨start + (p - 1) * align, size⟩) ∨
       ((∀ i, i < p → start + i * align ≤ max_addr ∧
            ¬ accepted binfo mem rel size align start i) ∧
          max_addr < start + p * align ∧ r.rel = rel ∧
          (0 < p → r.err ≠ GRUB_ERR_NONE))) := by
  by_cases hex : ∃ k, start + k * align ≤ max_addr ∧ accepted binfo mem rel size align start k
  · obtain ⟨k, hk1, hk2⟩ := hex
    obtain ⟨j, hj, hacc, hmin, hloop⟩ := align_loop_first_accepted binfo mem max_addr size
      align start k ⟨err0, out0, rel⟩ hk1 (by omega) hk2
    have hjle : start + j * align ≤ max_addr := by
      have : j * align ≤ k * align := Nat.mul_le_mul_right _ hj
      omega
    have hsm : start ≤ max_addr := by omega
    refine ⟨⟨GRUB_ERR_NONE, some ⟨start + j * align, size⟩,
      ⟨insert_chunk ⟨start + j * align, size⟩ rel.head⟩⟩, j + 1, ?_, ?_, Or.inl ?_⟩
    · have := (candidates_le_iff halign hsm j).1 hjle
      omega
    · intro fuel hfuel
      rw [grub_relocator_alloc_chunk_align, ← hstart]
      exact hloop fuel (by omega)
    · rw [Nat.add_sub_cancel]
      exact ⟨Nat.succ_pos _, hjle, hacc, hmin, rfl, rfl⟩
  · have hnone : ∀ k, start + k * align ≤ max_addr →
        ¬ accepted binfo mem rel size align start k := fun k hk hacc => hex ⟨k, hk, hacc⟩
    by_cases hsm : start ≤ max_addr
    · have hK := fun k => @candidates_le_iff max_addr align start halign hsm k
      have hlastfail : (grub_relocator_alloc_chunk_addr binfo (mem ((max_addr - start) / align))
          rel (start + (max_addr - start) / align * align) size).err ≠ GRUB_ERR_NONE := by
        have := hnone ((max_addr - start) / align) ((hK _).2 (Nat.lt_succ_self _))
        simpa [accepted] using this
      refine ⟨grub_relocator_alloc_chunk_addr binfo (mem ((max_addr - start) / align))
        rel (start + (max_addr - start) / align * align) size,
        (max_addr - start) / align + 1, Nat.le_refl _, ?_, Or.inr ⟨?_, ?_, ?_, ?_⟩⟩
      · intro fuel hfuel
        rw [grub_relocator_alloc_chunk_align, ← hstart]
        exact align_loop_exhausted binfo mem max_addr size align start ⟨err0, out0, rel⟩
          halign hno hsm hnone fuel hfuel
      · exact fun i hi => ⟨(hK i).2 hi, hnone i ((hK i).2 hi)⟩
      · have := (hK ((max_addr - start) / align + 1)).not.2 (Nat.lt_irrefl _)
        omega
      · exact (alloc_addr_fail_result _ _ _ _ _ hlastfail).2.1
      · exact fun _ => hlastfail
    · refine ⟨⟨err0, out0, rel⟩, 0, Nat.zero_le _, ?_, Or.inr ⟨?_, ?_, rfl, ?_⟩⟩
      · intro fuel hfuel
        obtain ⟨f, rfl⟩ : ∃ f, fuel = f + 1 := ⟨fuel - 1, by omega⟩
        rw [grub_relocator_alloc_chunk_align, ← hstart]
        exact align_loop_not_entered binfo mem max_addr size align start f _ (by omega)
      · exact fun i hi => absurd hi (Nat.not_lt_zero i)
      · omega
      · exact fun h => absurd h (Nat.lt_irrefl 0)

/-- C16, witness: the window search `(0x200, 0xF000, 40, 8)` with the chunk
`(0x200, 0xE00)` held. -/
theorem alloc_chunk_align_terminates_witness :
    ∃ r p, p ≤ (0xF000 - 0x200) / 8 + 1 ∧
      (∀ fuel, p < fuel →
        grub_relocator_alloc_chunk_align binfo_256M (fun _ => true) (other 0) none fuel
          ⟨[⟨0x200, 0xE00⟩]⟩ 0x200 0xF000 40 8 = some r) ∧
      ((0 < p ∧ 0x200 + (p - 1) * 8 ≤ 0xF000 ∧
          accepted binfo_256M (fun _ => true) ⟨[⟨0x200, 0xE00⟩]⟩ 40 8 0x200 (p - 1) ∧
          (∀ i, i < p - 1 →
            ¬ accepted binfo_256M (fun _ => true) ⟨[⟨0x200, 0xE00⟩]⟩ 40 8 0x200 i) ∧
          r.err = GRUB_ERR_NONE ∧ r.out = some ⟨0x200 + (p - 1) * 8, 40⟩) ∨
       ((∀ i, i < p → 0x200 + i * 8 ≤ 0xF000 ∧
            ¬ accepted binfo_256M (fun _ => true) ⟨[⟨0x200, 0xE00⟩]⟩ 40 8 0x200 i) ∧
          0xF000 < 0x200 + p * 8 ∧ r.rel = ⟨[⟨0x200, 0xE00⟩]⟩ ∧
          (0 < p → r.err ≠ GRUB_ERR_NONE))) :=
  alloc_chunk_align_terminates binfo_256M (fun _ => true) (other 0) none
    ⟨[⟨0x200, 0xE00⟩]⟩ 0x200 0xF000 40 8 0x200 (by decide) (by decide) (by decide)

/-- C16, counterexample, in three parts, each with the chunk `(0, 1)` or
`(0x100000, 0x10)` held in the table of a 256 MiB guest.  (1) `align = 0`:
the search `(min = 0, max = 0x1000, size = 1, align = 0)` starts at
`ALIGN_UP(0, 0) = 0`, the probe at 0 overlaps, `addr += 0` leaves `addr`
at 0, and the loop never ends, whatever `grub_zalloc` does.
(2) `max_addr` at the top: the search `(min = 2 ^ 63, max = 2 ^ 64 - 1,
size = 1, align = 2 ^ 63)` probes `2 ^ 63` (out of range), wraps to 0
(overlap), then `2 ^ 63` again, and never ends.  (3) The count: the search
`(min = 0xFFFFF, max = 0x100006, size = 1, align = 3)` starts at
`ALIGN_UP(search floor 0x100000, 3) = 0x100000`, probes `0x100000`,
`0x100003` and `0x100006`, all overlapping, and is not finished after three
iterations, while `(max_addr - ALIGN_UP(min_addr, 3)) / 3 + 1 = 2`. -/
theorem alloc_chunk_align_does_not_terminate :
    (∀ (mem : Nat → Bool) (fuel : Nat),
      grub_relocator_alloc_chunk_align binfo_256M mem (other 0) none fuel
        ⟨[⟨0, 1⟩]⟩ 0 0x1000 1 0 = none) ∧
    (∀ (mem : Nat → Bool) (fuel : Nat),
      grub_relocator_alloc_chunk_align binfo_256M mem (other 0) none fuel
        ⟨[⟨0, 1⟩]⟩ (2 ^ 63) (U64 - 1) 1 (2 ^ 63) = none) ∧
    ((0x100006 - ALIGN_UP 0xFFFFF 3) / 3 + 1 = 2 ∧
      grub_relocator_alloc_chunk_align binfo_256M (fun _ => true) (other 0) none 3
        ⟨[⟨0x100000, 0x10⟩]⟩ 0xFFFFF 0x100006 1 3 = none ∧
      grub_relocator_alloc_chunk_align binfo_256M (fun _ => true) (other 0) none 4
        ⟨[⟨0x100000, 0x10⟩]⟩ 0xFFFFF 0x100006 1 3
        = some ⟨GRUB_ERR_BAD_ARGUMENT, none, ⟨[⟨0x100000, 0x10⟩]⟩⟩) := by
  refine ⟨?_, ?_, by decide, by decide, by decide⟩
  · intro mem fuel
    have hs : ALIGN_UP (search_floor 0 0x1000 1 0) 0 = 0 := by decide
    rw [grub_relocator_alloc_chunk_align, hs]
    apply align_loop_diverges
    intro j
    rw [probe, candidate_fixed 0 0 (by decide) j]
    refine ⟨by decide, ?_⟩
    cases mem (0 + j) <;> decide
  · intro mem fuel
    have hs : ALIGN_UP (search_floor (2 ^ 63) (U64 - 1) 1 (2 ^ 63)) (2 ^ 63) = 2 ^ 63 := by
      decide
    rw [grub_relocator_alloc_chunk_align, hs]
    apply align_loop_diverges
    intro j
    rw [probe]
    rcases (candidate_two_cycle (2 ^ 63) (2 ^ 63) 0 (by decide) (by decide) j).1 with h | h
    · rw [h]
      refine ⟨by decide, ?_⟩
      cases mem (0 + j) <;> decide
    · rw [h]
      refine ⟨by decide, ?_⟩
      cases mem (0 + j) <;> decide

/-! ## The descriptor table and the guest mapping -/

/-- When every write succeeds, the trace of `grub_emu_bhyve_boot32` is its
list of writes, followed by the signal when `bt` is not zero. -/
theorem boot32_trace_ok (vmok : Nat → Bool) (bt : Nat) (rs : grub_relocator32_state)
    (hok : ∀ i, vmok i = true) :
    grub_emu_bhyve_boot32 vmok bt rs = boot32_writes bt rs ++ [] ∨
    grub_emu_bhyve_boot32 vmok bt rs = boot32_writes bt rs ++ [vm_event.reboot] := by
  rw [grub_emu_bhyve_boot32, perform_all_ok vmok hok]
  by_cases hbt : bt = 0
  · exact Or.inl (by rw [if_neg (not_not.2 hbt)])
  · exact Or.inr (by rw [if_pos hbt])

/-- C17, as amended.  Selectors and programmed descriptors: after
`grub_emu_bhyve_boot32` in which every write succeeds, for each of the code
register and the data, extra, stack, `FS` and `GS` registers, the entry of
the copied table `bhyve_gdt` indexed by the selector loaded into the
register decodes to the same base, the same byte limit (after granularity
scaling) and the same type and flags, ignoring the accessed bit, as the
descriptor programmed into the virtual CPU for that register.  The task
register holds the selector of entry `GUEST_TSS_SEL`, whose type byte is
that of the programmed descriptor `(0x1000, 0x67, 0x8b)` ignoring the busy
bit, but whose base is 0, whose byte limit is `0xfff` and whose granularity
flag is set.  The local-descriptor-table register holds the null selector
and its descriptor has `DESC_UNUSABLE` set. -/
theorem boot32_selectors_match_descriptors (vmok : Nat → Bool) (bt : Nat)
    (rs : grub_relocator32_state) (hok : ∀ i, vmok i = true) :
    (∀ r, r = VM_REG_GUEST_CS ∨ r = VM_REG_GUEST_DS ∨ r = VM_REG_GUEST_ES ∨
        r = VM_REG_GUEST_SS ∨ r = VM_REG_GUEST_FS ∨ r = VM_REG_GUEST_GS →
      ∃ sel p, vcpu_register r (grub_emu_bhyve_boot32 vmok bt rs) = some sel ∧
        vcpu_desc r (grub_emu_bhyve_boot32 vmok bt rs) = some p ∧
        entry_matches (gdt_entry (selector_index sel)) 0 p) ∧
    (vcpu_register VM_REG_GUEST_TR (grub_emu_bhyve_boot32 vmok bt rs)
        = some (GSEL GUEST_TSS_SEL SEL_KPL) ∧
      selector_index (GSEL GUEST_TSS_SEL SEL_KPL) = GUEST_TSS_SEL ∧
      vcpu_desc VM_REG_GUEST_TR (grub_emu_bhyve_boot32 vmok bt rs)
        = some (0x1000, 0x67, 0x8b) ∧
      (entry_access (gdt_entry GUEST_TSS_SEL) &&& 0xff) ||| 2 ^ 1 = 0x8b ||| 2 ^ 1 ∧
      entry_base (gdt_entry GUEST_TSS_SEL) = 0 ∧
      entry_byte_limit (gdt_entry GUEST_TSS_SEL) = 0xfff ∧
      entry_granular (gdt_entry GUEST_TSS_SEL) = true) ∧
    (vcpu_register VM_REG_GUEST_LDTR (grub_emu_bhyve_boot32 vmok bt rs)
        = some GUEST_NULL_SEL ∧
      ∃ b l a, vcpu_desc VM_REG_GUEST_LDTR (grub_emu_bhyve_boot32 vmok bt rs)
          = some (b, l, a) ∧
        a &&& DESC_UNUSABLE = DESC_UNUSABLE) := by
  have hm : ∀ p, p = (0, 0xffffffff, 0x0000C09B) →
      entry_matches (gdt_entry (selector_index (GSEL GUEST_CODE_SEL SEL_KPL))) 0 p := by
    intro p hp
    subst hp
    unfold entry_matches
    decide
  have hd : ∀ p, p = (0, 0xffffffff, 0x0000C093) →
      entry_matches (gdt_entry (selector_index (GSEL GUEST_DATA_SEL SEL_KPL))) 0 p := by
    intro p hp
    subst hp
    unfold entry_matches
    decide
  rcases boot32_trace_ok vmok bt rs hok with h | h <;> rw [h] <;>
  · refine ⟨?_, ⟨rfl, by decide, rfl, by decide, by decide, by decide, by decide⟩,
      rfl, 0, 0xffff, DESC_UNUSABLE ||| 0x82, rfl, by decide⟩
    intro r hr
    rcases hr with rfl | rfl | rfl | rfl | rfl | rfl
    · exact ⟨_, _, rfl, rfl, hm _ rfl⟩
    all_goals exact ⟨_, _, rfl, rfl, hd _ rfl⟩

/-- C17, witness: the entry scenario of the spec, scratch block at `0x200`. -/
theorem boot32_selectors_match_descriptors_witness :
    (∀ r, r = VM_REG_GUEST_CS ∨ r = VM_REG_GUEST_DS ∨ r = VM_REG_GUEST_ES ∨
        r = VM_REG_GUEST_SS ∨ r = VM_REG_GUEST_FS ∨ r = VM_REG_GUEST_GS →
      ∃ sel p, vcpu_register r (grub_emu_bhyve_boot32 (fun _ => true) 0x200 state_1M)
          = some sel ∧
        vcpu_desc r (grub_emu_bhyve_boot32 (fun _ => true) 0x200 state_1M) = some p ∧
        entry_matches (gdt_entry (selector_index sel)) 0 p) ∧
    (vcpu_register VM_REG_GUEST_TR (grub_emu_bhyve_boot32 (fun _ => true) 0x200 state_1M)
        = some (GSEL GUEST_TSS_SEL SEL_KPL) ∧
      selector_index (GSEL GUEST_TSS_SEL SEL_KPL) = GUEST_TSS_SEL ∧
      vcpu_desc VM_REG_GUEST_TR (grub_emu_bhyve_boot32 (fun _ => true) 0x200 state_1M)
        = some (0x1000, 0x67, 0x8b) ∧
      (entry_access (gdt_entry GUEST_TSS_SEL) &&& 0xff) ||| 2 ^ 1 = 0x8b ||| 2 ^ 1 ∧
      entry_base (gdt_entry GUEST_TSS_SEL) = 0 ∧
      entry_byte_limit (gdt_entry GUEST_TSS_SEL) = 0xfff ∧
      entry_granular (gdt_entry GUEST_TSS_SEL) = true) ∧
    (vcpu_register VM_REG_GUEST_LDTR (grub_emu_bhyve_boot32 (fun _ => true) 0x200 state_1M)
        = some GUEST_NULL_SEL ∧
      ∃ b l a, vcpu_desc VM_REG_GUEST_LDTR
          (grub_emu_bhyve_boot32 (fun _ => true) 0x200 state_1M) = some (b, l, a) ∧
        a &&& DESC_UNUSABLE = DESC_UNUSABLE) :=
  boot32_selectors_match_descriptors (fun _ => true) 0x200 state_1M (fun _ => rfl)

/-- C17, counterexample.  In the entry scenario of the spec (every write
successful, scratch block at `0x200`) the task register is loaded with the
selector `0x20`, which indexes entry 4 of the copied table, and is
programmed with the descriptor `(base 0x1000, limit 0x67, access 0x8b)`;
entry 4 decodes to base 0, byte limit `0xfff` (limit field 0, granularity
flag set) and access `0x8089`: the base, the byte limit and the flags all
differ, also when the busy bit is ignored. -/
theorem boot32_task_entry_differs_from_programmed :
    vcpu_register VM_REG_GUEST_TR (grub_emu_bhyve_boot32 (fun _ => true) 0x200 state_1M)
      = some 0x20 ∧
    selector_index 0x20 = 4 ∧
    gdt_entry 4 = [0x0000, 0x0000, 0x8900, 0x0080] ∧
    vcpu_desc VM_REG_GUEST_TR (grub_emu_bhyve_boot32 (fun _ => true) 0x200 state_1M)
      = some (0x1000, 0x67, 0x8b) ∧
    entry_base (gdt_entry 4) = 0 ∧
    entry_byte_limit (gdt_entry 4) = 0xfff ∧
    entry_access (gdt_entry 4) = 0x8089 ∧
    entry_access (gdt_entry 4) ||| 2 ^ 1 ≠ 0x8b ||| 2 ^ 1 ∧
    ¬ entry_matches (gdt_entry (selector_index 0x20)) 1 (0x1000, 0x67, 0x8b) := by
  unfold entry_matches
  decide

/-- C18, evaluation of the failing input.  An 8 GiB guest with a 3 GiB
low-memory limit; the relocator holds the chunks `(0, 0x10000)` and
`(4 GiB, 0x1000)`, placed by two `grub_relocator_alloc_chunk_addr` calls.
The window search of `grub_relocator32_boot` fails, the fallback request
places the scratch chunk at `t = ALIGN_UP (4 GiB + 0x1000, 8) = 0x100001000`,
and `grub_emu_bhyve_boot32` receives `t` in a `grub_uint32_t`: the table is
copied to guest-physical `0x1000` and the descriptor-table register gets
base `0x1000` (limit 39).  `[0x1000, 0x1000 + 40)` is no part of the
scratch chunk and lies inside the held chunk `(0, 0x10000)`. -/
theorem boot32_table_copied_to_truncated_address :
    run_calls globals_8G.info 1
        [alloc_call.chunk_addr true 0 0x10000, alloc_call.chunk_addr true (4 * GB) 0x1000]
        grub_relocator_new = some ⟨[⟨0, 0x10000⟩, ⟨4 * GB, 0x1000⟩]⟩ ∧
    ALIGN_UP (grub_relocator_end ⟨[⟨0, 0x10000⟩, ⟨4 * GB, 0x1000⟩]⟩) 8 = 0x100001000 ∧
    ∃ b, (∀ fuel, 7617 < fuel →
        grub_relocator32_boot globals_8G.info (fun _ => true) true (fun _ => true) (other 0)
          none fuel ⟨[⟨0, 0x10000⟩, ⟨4 * GB, 0x1000⟩]⟩ state_1M = some b) ∧
      b.err = GRUB_ERR_NONE ∧
      b.ch = some ⟨0x100001000, 40⟩ ∧
      b.rel = ⟨[⟨0, 0x10000⟩, ⟨4 * GB, 0x1000⟩, ⟨0x100001000, 40⟩]⟩ ∧
      gdt_copied_to b.trace = some 0x1000 ∧
      vcpu_desc VM_REG_GUEST_GDTR b.trace = some (0x1000, 39, 0) ∧
      vm_event.reboot ∈ b.trace ∧
      grub_relocator_within 0x1000 0x100001000 40 = false ∧
      grub_relocator_within 0x1000 0 0x10000 = true ∧
      grub_relocator_within (0x1000 + 39) 0 0x10000 = true := by
  refine ⟨by decide, by decide,
    boot32_after_search globals_8G.info true (fun _ => true)
      ⟨GRUB_ERR_BAD_ARGUMENT, none, ⟨[⟨0, 0x10000⟩, ⟨4 * GB, 0x1000⟩]⟩⟩ state_1M, ?_,
    by decide, by decide, by decide, by decide, by decide, by decide, by decide, by decide,
    by decide⟩
  intro fuel hfuel
  exact boot_of_search _ _ _ _ _ _ _ _ _ _
    (boot_search_blocked globals_8G.info (fun _ => true) (other 0) none
      ⟨[⟨0, 0x10000⟩, ⟨4 * GB, 0x1000⟩]⟩ ⟨0, 0x10000⟩ (by decide) (by simp) (by decide)
      (by decide) (by decide) fuel hfuel)

/-- C19, evaluation of the failing input.  A 256 MiB guest (low-memory
limit 3 GiB): `grub_emu_bhyve_init` maps `lomem = 0x10000000` bytes of low
memory and declares the segment `[0x100000, 0x10000000]`, whose `end` the
segment scan of `grub_relocator_alloc_chunk_addr` takes as the last
address (`psize = end - start + 1`).  The request `(0xFFFF001, 0x1000)` on
the empty relocator succeeds; its last byte `p = 0x10000000` is an address
of the placed chunk and of the declared segment, and
`grub_emu_bhyve_virt` returns `NULL` for it.  The same holds at the end of
the high segment of an 8 GiB guest, `p = 4 GiB + himem = 9 GiB`. -/
theorem declared_segment_end_translates_to_null :
    globals_256M.lomem = 0x10000000 ∧ globals_256M.himem = 0 ∧
    globals_256M.info.segs =
      [⟨0, 640 * 1024 - 1, GRUB_MEMORY_AVAILABLE⟩,
       ⟨0x100000, 0x10000000, GRUB_MEMORY_AVAILABLE⟩] ∧
    seg_fits 0x10000000 0x10000000 ⟨0x100000, 0x10000000, GRUB_MEMORY_AVAILABLE⟩ = true ∧
    grub_relocator_alloc_chunk_addr globals_256M.info true grub_relocator_new 0xFFFF001 0x1000
      = ⟨GRUB_ERR_NONE, some ⟨0xFFFF001, 0x1000⟩, ⟨[⟨0xFFFF001, 0x1000⟩]⟩⟩ ∧
    grub_relocator_within 0x10000000 0xFFFF001 0x1000 = true ∧
    grub_emu_bhyve_virt globals_256M 0x10000000 = none ∧
    ¬ (0x10000000 < globals_256M.lomem ∨
      (4 * GB ≤ 0x10000000 ∧ 0x10000000 < 4 * GB + globals_256M.himem)) ∧
    globals_8G.lomem = 3 * GB ∧ globals_8G.himem = 5 * GB ∧
    globals_8G.info.segs =
      [⟨0, 640 * 1024 - 1, GRUB_MEMORY_AVAILABLE⟩,
       ⟨0x100000, 3 * GB, GRUB_MEMORY_AVAILABLE⟩,
       ⟨4 * GB, 9 * GB, GRUB_MEMORY_AVAILABLE⟩] ∧
    grub_relocator_alloc_chunk_addr globals_8G.info true grub_relocator_new
        (9 * GB - 0xFFF) 0x1000
      = ⟨GRUB_ERR_NONE, some ⟨9 * GB - 0xFFF, 0x1000⟩, ⟨[⟨9 * GB - 0xFFF, 0x1000⟩]⟩⟩ ∧
    grub_relocator_within (9 * GB) (9 * GB - 0xFFF) 0x1000 = true ∧
    grub_emu_bhyve_virt globals_8G (9 * GB) = none ∧
    grub_emu_bhyve_virt globals_8G (3 * GB) = none := by
  decide

end Bhyve
